import Mathlib

/-!
Shallow embedding of the storage engine in `src/json_redis.py` (class
`JSONStorage`).  Python values that can live in `self.storage` are modelled
by `JR.Val`; the snapshot file contents by `JR.Json`.  Machine state is a
pair of the in-memory mapping (an insertion-ordered association list, like a
CPython `dict`) and the on-disk snapshot (`none` = no file).  Every method of
the class is translated to a function `St → args → St × result`, where the
result is wrapped in `Except JR.PyErr` when the Python code can raise.

Modelling conventions (each noted where it is used):
* `time.time()` is passed explicitly as an integer `now` argument.
* A Python `set` is represented by its list of elements without duplicates,
  in insertion order; `list(s)` enumerates that order.
* A Python 2-tuple `(score, value)` (produced only by `zadd`) is `Val.tup`.
-/

namespace JR

/-- Error kinds that the Python code can raise. -/
inductive PyErr where
  | typeError
  | keyError
  | attributeError
  | valueError
deriving DecidableEq, Repr

/-- JSON documents, as written by `json.dump` / read by `json.load`.
Numbers are restricted to integers (the engine itself only stores ints;
floats are out of scope of the embedding). -/
inductive Json where
  | str : String → Json
  | num : Int → Json
  | arr : List Json → Json
  | obj : List (String × Json) → Json

/-- Python run-time values storable in `self.storage`:
strings, ints, lists, 2-tuples (from `zadd`), sets and dicts. -/
inductive Val where
  | str : String → Val
  | int : Int → Val
  | list : List Val → Val
  | tup : Val → Val → Val
  | set : List Val → Val
  | dict : List (String × Val) → Val

mutual

/-- Python `==` on storable values (structural; a tuple is never equal to a
list, mirroring CPython).  Set comparison is representation-sensitive here,
which is only ever applied to the primitive, duplicate-free sets the engine
builds. -/
def Val.beq : Val → Val → Bool
  | .str a, .str b => a == b
  | .int a, .int b => a == b
  | .tup a b, .tup c d => Val.beq a c && Val.beq b d
  | .list xs, .list ys => Val.beqList xs ys
  | .set xs, .set ys => Val.beqList xs ys
  | .dict fs, .dict gs => Val.beqFields fs gs
  | _, _ => false

/-- Elementwise Python `==` on lists of values. -/
def Val.beqList : List Val → List Val → Bool
  | [], [] => true
  | x :: xs, y :: ys => Val.beq x y && Val.beqList xs ys
  | _, _ => false

/-- Fieldwise Python `==` on dict entry lists. -/
def Val.beqFields : List (String × Val) → List (String × Val) → Bool
  | [], [] => true
  | (k, v) :: fs, (l, w) :: gs => k == l && Val.beq v w && Val.beqFields fs gs
  | _, _ => false

end

/-- Is the value a primitive scalar, i.e. `isinstance(item, (int, str))`? -/
def scOK : Val → Bool
  | .str _ => true
  | .int _ => true
  | _ => false

/-- Storage: CPython dicts keep insertion order, so the key-value mapping is
an association list; assignment updates in place or appends at the end. -/
def Storage := List (String × Val)

/-- Dict lookup (first matching key; reachable storages have unique keys). -/
def alookup : List (String × Val) → String → Option Val
  | [], _ => none
  | (k', v) :: rest, k => if k' = k then some v else alookup rest k

/-- Dict assignment `d[k] = v`: replaces in place if the key is present,
otherwise appends at the end (CPython insertion order). -/
def dinsert : List (String × Val) → String → Val → List (String × Val)
  | [], k, v => [(k, v)]
  | (k', v') :: rest, k, v =>
      if k' = k then (k', v) :: rest else (k', v') :: dinsert rest k v

/-- Dict deletion `del d[k]`: removes the (first) entry with the key. -/
def eraseK : List (String × Val) → String → List (String × Val)
  | [], _ => []
  | (k', v') :: rest, k => if k' = k then rest else (k', v') :: eraseK rest k

/-- No-duplicates check on primitive values (elements of an engine set). -/
def pNodup : List Val → Bool
  | [] => true
  | v :: vs => !(vs.any (fun w => Val.beq v w)) && pNodup vs

/-- No-duplicates check on dict keys. -/
def kNodup : List String → Bool
  | [] => true
  | k :: ks => !(ks.any (fun l => k == l)) && kNodup ks

mutual

/-- Structural well-formedness that every value the engine ever stores
satisfies: sets contain only primitive scalars without duplicates (the only
elements `sadd` inserts are hashables passed by the engine API, here
scalars), and dicts have pairwise distinct keys (CPython dicts by
construction). -/
def ValOK : Val → Bool
  | .str _ => true
  | .int _ => true
  | .tup a b => ValOK a && ValOK b
  | .list xs => ValsOK xs
  | .set xs => xs.all scOK && pNodup xs
  | .dict fs => kNodup (fs.map Prod.fst) && FieldsOK fs

/-- All values in a list are well-formed. -/
def ValsOK : List Val → Bool
  | [] => true
  | v :: vs => ValOK v && ValsOK vs

/-- All values of a dict are well-formed. -/
def FieldsOK : List (String × Val) → Bool
  | [] => true
  | (_, v) :: fs => ValOK v && FieldsOK fs

end

/-- Top-level values are never bare tuples (tuples only occur inside the
lists built by `zadd`). -/
def topOK : Val → Bool
  | .tup _ _ => false
  | _ => true

/-- Invariant of the in-memory mapping maintained by every engine
operation. -/
def StOK (σ : List (String × Val)) : Bool :=
  kNodup (σ.map Prod.fst) && σ.all (fun kv => ValOK kv.2 && topOK kv.2)

mutual

/-- Does the value contain no Python tuple anywhere (i.e. no scored-list
entry)?  Used as a side condition: tuples serialize as JSON arrays and do
not survive a snapshot round trip. -/
def NoTupV : Val → Bool
  | .str _ => true
  | .int _ => true
  | .tup _ _ => false
  | .list xs => NoTupL xs
  | .set xs => NoTupL xs
  | .dict fs => NoTupF fs

/-- No tuple in any element. -/
def NoTupL : List Val → Bool
  | [] => true
  | v :: vs => NoTupV v && NoTupL vs

/-- No tuple in any field value. -/
def NoTupF : List (String × Val) → Bool
  | [] => true
  | (_, v) :: fs => NoTupV v && NoTupF fs

end

mutual

/-- Serialization of a (non-top-level) value by `json.dump`: tuples become
arrays, a nested `set` is not JSON serializable and raises `TypeError`. -/
def encVal : Val → Except PyErr Json
  | .str s => .ok (.str s)
  | .int n => .ok (.num n)
  | .tup a b =>
      match encVal a with
      | .error e => .error e
      | .ok x =>
        match encVal b with
        | .error e => .error e
        | .ok y => .ok (.arr [x, y])
  | .list xs =>
      match encListV xs with
      | .ok ys => .ok (.arr ys)
      | .error e => .error e
  | .set _ => .error .typeError
  | .dict fs =>
      match encFieldsV fs with
      | .ok gs => .ok (.obj gs)
      | .error e => .error e

/-- Serialization of the elements of a list. -/
def encListV : List Val → Except PyErr (List Json)
  | [] => .ok []
  | v :: vs =>
      match encVal v with
      | .error e => .error e
      | .ok x =>
        match encListV vs with
        | .error e => .error e
        | .ok ys => .ok (x :: ys)

/-- Serialization of the fields of a dict. -/
def encFieldsV : List (String × Val) → Except PyErr (List (String × Json))
  | [] => .ok []
  | (k, v) :: fs =>
      match encVal v with
      | .error e => .error e
      | .ok x =>
        match encFieldsV fs with
        | .error e => .error e
        | .ok gs => .ok ((k, x) :: gs)

end

/-- Top-level serialization used by `_save_storage`: a top-level `set` is
first turned into `list(v)` (its elements in iteration order); everything
else goes to `json.dump` unchanged. -/
def encTop : Val → Except PyErr Json
  | .set xs =>
      match encListV xs with
      | .ok ys => .ok (.arr ys)
      | .error e => .error e
  | v => encVal v

/-- Entrywise top-level serialization of the storage mapping. -/
def encStAux : List (String × Val) → Except PyErr (List (String × Json))
  | [] => .ok []
  | (k, v) :: rest =>
      match encTop v with
      | .error e => .error e
      | .ok x =>
        match encStAux rest with
        | .error e => .error e
        | .ok fs => .ok ((k, x) :: fs)

/-- Serialization of the whole storage mapping
(`json.dump({k: list(v) if isinstance(v, set) else v ...})`). -/
def encSt (σ : List (String × Val)) : Except PyErr Json :=
  match encStAux σ with
  | .ok fs => .ok (.obj fs)
  | .error e => .error e

mutual

/-- Deserialization by `json.load`: arrays become lists, objects become
dicts; no sets and no tuples ever come back. -/
def decVal : Json → Val
  | .str s => .str s
  | .num n => .int n
  | .arr xs => .list (decListJ xs)
  | .obj fs => .dict (decFieldsJ fs)

/-- Deserialization of array elements. -/
def decListJ : List Json → List Val
  | [] => []
  | x :: xs => decVal x :: decListJ xs

/-- Deserialization of object fields. -/
def decFieldsJ : List (String × Json) → List (String × Val)
  | [] => []
  | (k, x) :: fs => (k, decVal x) :: decFieldsJ fs

end

/-- Python `set(xs)` on a list: deduplicate; the embedding keeps first
occurrences in order (CPython's iteration order is unspecified). -/
def pdedup : List Val → List Val
  | [] => []
  | v :: vs => v :: (pdedup vs).filter (fun w => !(Val.beq v w))

/-- The post-load fixup in `_load_storage`: any loaded top-level list whose
items are all `int`/`str` is reinterpreted as a set. -/
def loadTop (j : Json) : Val :=
  match decVal j with
  | .list xs => if xs.all scOK then .set (pdedup xs) else .list xs
  | v => v

/-- Reconstruct an in-memory mapping from a snapshot file:
`json.load` plus the list-of-primitives-to-set reinterpretation. -/
def loadStorage : Json → List (String × Val)
  | .obj fs => fs.map (fun kx => (kx.1, loadTop kx.2))
  | _ => []

/-- Substring test on character lists (Python `needle in haystack` for
strings; the empty needle is contained in everything). -/
def isSub (needle : List Char) : List Char → Bool
  | [] => needle.isEmpty
  | c :: t => needle.isPrefixOf (c :: t) || isSub needle t

/-- Python `field in container` where `field` is a string: substring test on
strings, element test on lists/sets/tuples, key test on dicts, and a
`TypeError` on ints (not a container). -/
def pyContainsStr (c : Val) (f : String) : Except PyErr Bool :=
  match c with
  | .str s => .ok (isSub f.data s.data)
  | .list xs => .ok (xs.any (fun x => Val.beq x (.str f)))
  | .set xs => .ok (xs.any (fun x => Val.beq x (.str f)))
  | .tup a b => .ok (Val.beq a (.str f) || Val.beq b (.str f))
  | .dict fs => .ok (alookup fs f).isSome
  | .int _ => .error .typeError

/-- Python `value in container` for an arbitrary value: `x in s` on a
string demands `x` be a string, dict membership tests keys (non-strings are
simply absent), ints are not containers. -/
def pyContainsVal (c : Val) (x : Val) : Except PyErr Bool :=
  match c with
  | .str s =>
      match x with
      | .str t => .ok (isSub t.data s.data)
      | _ => .error .typeError
  | .list xs => .ok (xs.any (fun y => Val.beq y x))
  | .set xs => .ok (xs.any (fun y => Val.beq y x))
  | .tup a b => .ok (Val.beq a x || Val.beq b x)
  | .dict fs =>
      match x with
      | .str t => .ok (alookup fs t).isSome
      | .int _ => .ok false
      | _ => .error .typeError
  | .int _ => .error .typeError

/-- Python `container[field]` with a string subscript: only dicts support
it (`KeyError` when the key is missing); strings, lists, sets, tuples and
ints raise `TypeError`. -/
def pyGetItem (c : Val) (f : String) : Except PyErr Val :=
  match c with
  | .dict fs =>
      match alookup fs f with
      | some v => .ok v
      | none => .error .keyError
  | _ => .error .typeError

/-- Python `container[field] = value` with a string subscript: dict
assignment; every other storable type raises `TypeError`. -/
def pySetItem (c : Val) (f : String) (v : Val) : Except PyErr Val :=
  match c with
  | .dict fs => .ok (.dict (dinsert fs f v))
  | _ => .error .typeError

/-- Python `del container[field]` with a string subscript: dict deletion;
every other storable type raises `TypeError`. -/
def pyDelItem (c : Val) (f : String) : Except PyErr Val :=
  match c with
  | .dict fs => .ok (.dict (eraseK fs f))
  | _ => .error .typeError

/-- Remove the first occurrence of a value (Python `x == y` equality). -/
def removeFirstB (x : Val) : List Val → List Val
  | [] => []
  | y :: ys => if Val.beq y x then ys else y :: removeFirstB x ys

/-- Python `container.remove(value)`: sets and lists have a `remove`
method; strings, dicts, ints and tuples raise `AttributeError`. -/
def pyRemoveVal (c : Val) (x : Val) : Except PyErr Val :=
  match c with
  | .set xs => .ok (.set (removeFirstB x xs))
  | .list xs => .ok (.list (removeFirstB x xs))
  | _ => .error .attributeError

/-- Python `v + d` for an integer `d`: only int + int succeeds; adding an
int to a string, list, set, dict or tuple raises `TypeError`. -/
def pyAdd (v : Val) (d : Int) : Except PyErr Val :=
  match v with
  | .int n => .ok (.int (n + d))
  | _ => .error .typeError

/-- Python `now > ea` where `now` is the clock reading: numeric comparison;
comparing a number with a non-number raises `TypeError`. -/
def pyGtE (now : Int) (ea : Val) : Except PyErr Bool :=
  match ea with
  | .int t => .ok (decide (now > t))
  | _ => .error .typeError

/-- Python list slicing `xs[a:b]` (both bounds given): negative indices
count from the end, then both are clamped to `[0, len]`. -/
def pySlice (xs : List Val) (a b : Int) : List Val :=
  let n : Int := xs.length
  let lo : Int := if a < 0 then max (n + a) 0 else min a n
  let hi : Int := if b < 0 then max (n + b) 0 else min b n
  (xs.drop lo.toNat).take (hi - lo).toNat

/-- Python list indexing `xs[i]` under `try: ... except IndexError`:
negative indices count from the end; out of range gives `None`. -/
def pyIndex (xs : List Val) (i : Int) : Option Val :=
  let n : Int := xs.length
  let j : Int := if i < 0 then i + n else i
  if 0 ≤ j ∧ j < n then xs.get? j.toNat else none

/-- Python 2-unpacking `s, v = item` as used by `zrange`/`zscore`:
2-tuples and 2-element lists unpack; a 2-character string unpacks into its
characters; other lengths raise `ValueError`, ints `TypeError`.  (Sets and
dicts of size 2 unpack in iteration order; for dicts the keys are taken.) -/
def unpack2 (v : Val) : Except PyErr (Val × Val) :=
  match v with
  | .tup a b => .ok (a, b)
  | .list [a, b] => .ok (a, b)
  | .list _ => .error .valueError
  | .str s =>
      match s.data with
      | [c, d] => .ok (.str (String.mk [c]), .str (String.mk [d]))
      | _ => .error .valueError
  | .set [a, b] => .ok (a, b)
  | .set _ => .error .valueError
  | .dict [(k, _), (l, _)] => .ok (.str k, .str l)
  | .dict _ => .error .valueError
  | .int _ => .error .typeError

/-- Is the value a `(score, member)` tuple of an int score and string
member, as appended by the engine's `zadd`? -/
def isZTup : Val → Bool
  | .tup (.int _) (.str _) => true
  | _ => false

/-- Lexicographic order on character lists by code point (Python string
comparison). -/
def lexLe : List Char → List Char → Bool
  | [], _ => true
  | _ :: _, [] => false
  | c :: cs, d :: ds =>
      if c.toNat < d.toNat then true
      else if d.toNat < c.toNat then false
      else lexLe cs ds

/-- Python tuple ordering on `(int, str)` pairs: by score, then member. -/
def zLe (x y : Val) : Bool :=
  match x, y with
  | .tup (.int a) (.str s), .tup (.int b) (.str t) =>
      a < b || (a == b && lexLe s.data t.data)
  | _, _ => true

/-- Stable insertion into a sorted run for `list.sort()`. -/
def zinsert (x : Val) : List Val → List Val
  | [] => [x]
  | y :: ys => if zLe y x then y :: zinsert x ys else x :: y :: ys

/-- Insertion sort implementing `list.sort()` on scored-pair lists. -/
def isortZ : List Val → List Val
  | [] => []
  | x :: xs => zinsert x (isortZ xs)

/-- Python `list.sort()` as called by `zadd`: succeeds on lists of
`(int score, str member)` tuples (and trivially on lists of length at most
one); any other list of length 2 or more mixes incomparable items and
raises `TypeError`.  CPython leaves such a list in a partially modified
state; the embedding keeps it unchanged, which is exact for lists of
length 2 (the first comparison raises before any element moves). -/
def sortZ (xs : List Val) : Except PyErr (List Val) :=
  if xs.all isZTup then .ok (isortZ xs)
  else if xs.length ≤ 1 then .ok xs
  else .error .typeError

/-- Scan for the closing bracket of a glob character class. -/
def spanToClose : List Char → List Char → Option (List Char × List Char)
  | [], _ => none
  | c :: r, acc => if c = ']' then some (acc.reverse, r) else spanToClose r (c :: acc)

/-- Strip a leading `!` (class negation) from a glob class. -/
def stripNeg : List Char → Bool × List Char
  | [] => (false, [])
  | c :: r => if c = '!' then (true, r) else (false, c :: r)

/-- A `]` directly after `[` (or `[!`) is a literal class member. -/
def stripLead : List Char → List Char × List Char
  | [] => ([], [])
  | c :: r => if c = ']' then ([']'], r) else ([], c :: r)

/-- Split a glob pattern tail after `[` into (negated?, class body, rest);
`none` when there is no closing bracket (the `[` is then literal). -/
def splitClass (ps : List Char) : Option (Bool × List Char × List Char) :=
  match spanToClose (stripLead (stripNeg ps).2).2 [] with
  | some br => some ((stripNeg ps).1, (stripLead (stripNeg ps).2).1 ++ br.1, br.2)
  | none => none

/-- Membership of a character in a glob class body, with ranges. -/
def inClass : List Char → Char → Bool
  | a :: '-' :: b :: rest, c => (a ≤ c && c ≤ b) || inClass rest c
  | a :: rest, c => a == c || inClass rest c
  | [], _ => false

theorem spanToClose_lt : ∀ l acc b r, spanToClose l acc = some (b, r) →
    r.length < l.length := by
  intro l
  induction l with
  | nil => intro acc b r h; simp [spanToClose] at h
  | cons c t ih =>
    intro acc b r h
    rw [spanToClose] at h
    split at h
    · simp at h
      obtain ⟨h1, h2⟩ := h
      subst h2
      simp
    · exact Nat.lt_succ_of_lt (ih _ _ _ h)

theorem stripNeg_le (ps : List Char) : (stripNeg ps).2.length ≤ ps.length := by
  cases ps with
  | nil => simp [stripNeg]
  | cons c r => simp only [stripNeg]; split <;> simp

theorem stripLead_le (ps : List Char) : (stripLead ps).2.length ≤ ps.length := by
  cases ps with
  | nil => simp [stripLead]
  | cons c r => simp only [stripLead]; split <;> simp

theorem splitClass_le {ps : List Char} {n : Bool} {b r : List Char}
    (h : splitClass ps = some (n, b, r)) : r.length < ps.length + 1 := by
  unfold splitClass at h
  rcases hsp : spanToClose (stripLead (stripNeg ps).2).2 [] with _ | ⟨b1, r1⟩
  · rw [hsp] at h; simp at h
  · rw [hsp] at h
    simp at h
    obtain ⟨_, _, hr⟩ := h
    subst hr
    have h1 := spanToClose_lt _ [] b1 r1 hsp
    have h2 := stripLead_le (stripNeg ps).2
    have h3 := stripNeg_le ps
    omega

/-- `fnmatch.fnmatch(name, pattern)` glob matching: `*` matches any run,
`?` one character, `[...]` a character class (with `!` negation and `a-b`
ranges, a leading `]` literal, and an unmatched `[` taken literally). -/
def globMatch : List Char → List Char → Bool
  | [], [] => true
  | [], _ :: _ => false
  | '*' :: ps, [] => globMatch ps []
  | '*' :: ps, c :: t => globMatch ps (c :: t) || globMatch ('*' :: ps) t
  | '?' :: ps, _ :: t => globMatch ps t
  | '?' :: _, [] => false
  | '[' :: ps, c :: t =>
      match hs : splitClass ps with
      | some (neg, body, rest) => (inClass body c != neg) && globMatch rest t
      | none => ('[' == c) && globMatch ps t
  | '[' :: _, [] => false
  | p :: ps, c :: t => p == c && globMatch ps t
  | _ :: _, [] => false
termination_by ps s => (ps.length + s.length, s.length)
decreasing_by
  all_goals simp_wf
  all_goals try omega
  · have := splitClass_le hs; omega

/-- Engine state: the in-memory mapping plus the snapshot file contents
(`none` when the file does not exist, as for a fresh instance). -/
structure St where
  storage : List (String × Val)
  disk : Option Json

/-- A fresh `JSONStorage` instance whose snapshot file does not exist yet:
`self.storage = {}`. -/
def stInit : St := ⟨[], none⟩

/-- A fresh `JSONStorage` instance started on an existing snapshot file
`j`: `_load_storage` reads and reinterprets it. -/
def stLoad (j : Json) : St := ⟨loadStorage j, some j⟩

/-- `_save_storage`: serialize the whole in-memory mapping over the
snapshot file.  On a serialization `TypeError` (a set nested inside a TTL
wrapper) the exception propagates; the embedding leaves the previous
snapshot in place. -/
def saveSt (st : St) : St × Except PyErr Unit :=
  match encSt st.storage with
  | .ok j => (⟨st.storage, some j⟩, .ok ())
  | .error e => (st, .error e)

/-- `set(key, value)`: unconditional overwrite, then persist. -/
def pySet (st : St) (k : String) (v : Val) : St × Except PyErr Unit :=
  saveSt ⟨dinsert st.storage k v, st.disk⟩

/-- `setex(key, ttl, value)`: store a TTL wrapper dict
`{'value': value, 'expires_at': time.time() + ttl}`, then persist. -/
def pySetex (st : St) (now : Int) (k : String) (ttl : Int) (v : Val) :
    St × Except PyErr Unit :=
  saveSt ⟨dinsert st.storage k
    (.dict [("value", v), ("expires_at", .int (now + ttl))]), st.disk⟩

/-- `get(key)`: any dict with an `expires_at` key is treated as a TTL
wrapper; strictly past the timestamp the key is deleted and the store
persisted before returning `None`, otherwise the wrapper's `value` entry is
returned (a `KeyError` if the dict has no `value` key).  Non-wrapper values
are returned as stored; a missing key gives `None`. -/
def pyGet (st : St) (now : Int) (k : String) : St × Except PyErr (Option Val) :=
  match alookup st.storage k with
  | none => (st, .ok none)
  | some item =>
    match item with
    | .dict fs =>
      match alookup fs "expires_at" with
      | some ea =>
        match pyGtE now ea with
        | .error e => (st, .error e)
        | .ok true =>
          ((saveSt ⟨eraseK st.storage k, st.disk⟩).1,
            (saveSt ⟨eraseK st.storage k, st.disk⟩).2.map (fun _ => none))
        | .ok false =>
          match alookup fs "value" with
          | some v => (st, .ok (some v))
          | none => (st, .error .keyError)
      | none => (st, .ok (some (.dict fs)))
    | _ => (st, .ok (some item))

/-- `delete(key)`: remove the key if present and persist; silently do
nothing otherwise. -/
def pyDelete (st : St) (k : String) : St × Except PyErr Unit :=
  match alookup st.storage k with
  | some _ => saveSt ⟨eraseK st.storage k, st.disk⟩
  | none => (st, .ok ())

/-- `sadd(key, value)`: create an empty set when absent, `TypeError` when
the stored value is not a set, otherwise add (idempotent) and persist. -/
def pySadd (st : St) (k : String) (v : Val) : St × Except PyErr Unit :=
  match alookup st.storage k with
  | none => saveSt ⟨dinsert st.storage k (.set [v]), st.disk⟩
  | some (.set xs) =>
      saveSt ⟨dinsert st.storage k
        (.set (if xs.any (fun y => Val.beq y v) then xs else xs ++ [v])),
        st.disk⟩
  | some _ => (st, .error .typeError)

/-- `srem(key, value)`: when the key is present and the membership test
succeeds, call `.remove` (only lists and sets have one) and persist. -/
def pySrem (st : St) (k : String) (v : Val) : St × Except PyErr Unit :=
  match alookup st.storage k with
  | none => (st, .ok ())
  | some c =>
    match pyContainsVal c v with
    | .error e => (st, .error e)
    | .ok false => (st, .ok ())
    | .ok true =>
      match pyRemoveVal c v with
      | .error e => (st, .error e)
      | .ok c1 => saveSt ⟨dinsert st.storage k c1, st.disk⟩

/-- `sismember(key, value)`: `key in storage and value in storage[key]`
(the membership test can itself raise on a non-container). -/
def pySismember (st : St) (k : String) (v : Val) : St × Except PyErr Bool :=
  match alookup st.storage k with
  | none => (st, .ok false)
  | some c => (st, pyContainsVal c v)

/-- `smembers(key)`: return the stored value as-is when the key is present
(whatever its type — the code does not check), else the empty set. -/
def pySmembers (st : St) (k : String) : St × Val :=
  match alookup st.storage k with
  | some c => (st, c)
  | none => (st, .set [])

/-- `hset(key, field, value)`: create an empty dict when absent, then
`storage[key][field] = value` — which raises `TypeError` when the stored
value does not support item assignment — and persist. -/
def pyHset (st : St) (k f : String) (v : Val) : St × Except PyErr Unit :=
  match alookup st.storage k with
  | none => saveSt ⟨dinsert st.storage k (.dict [(f, v)]), st.disk⟩
  | some c =>
    match pySetItem c f v with
    | .error e => (st, .error e)
    | .ok c1 => saveSt ⟨dinsert st.storage k c1, st.disk⟩

/-- `hget(key, field)`: `field in storage[key]` then `storage[key][field]`
(both steps follow Python semantics on non-dict values); `None` when the
key or field is absent. -/
def pyHget (st : St) (k f : String) : St × Except PyErr (Option Val) :=
  match alookup st.storage k with
  | none => (st, .ok none)
  | some c =>
    match pyContainsStr c f with
    | .error e => (st, .error e)
    | .ok false => (st, .ok none)
    | .ok true =>
      match pyGetItem c f with
      | .error e => (st, .error e)
      | .ok v => (st, .ok (some v))

/-- `hdel(key, field)`: delete the field and persist when the membership
test succeeds. -/
def pyHdel (st : St) (k f : String) : St × Except PyErr Unit :=
  match alookup st.storage k with
  | none => (st, .ok ())
  | some c =>
    match pyContainsStr c f with
    | .error e => (st, .error e)
    | .ok false => (st, .ok ())
    | .ok true =>
      match pyDelItem c f with
      | .error e => (st, .error e)
      | .ok c1 => saveSt ⟨dinsert st.storage k c1, st.disk⟩

/-- The `if key not in self.storage: self.storage[key] = <empty>` prelude
shared by `hincrby`, `incrby` and `zadd`: ensure the key is present,
zero-initialised with the given default. -/
def touch (σ : List (String × Val)) (k : String) (dflt : Val) :
    List (String × Val) :=
  if (alookup σ k).isSome then σ else dinsert σ k dflt

/-- `hincrby(key, field, increment)`: create the dict and zero-init the
field as needed, add the increment, persist and return the new field
value.  Each Python step (membership, item get/set, `+`) can raise, in
which case the mutations already applied stay in memory. -/
def pyHincrby (st : St) (k f : String) (d : Int) : St × Except PyErr Val :=
  match alookup (touch st.storage k (.dict [])) k with
  | some c0 =>
    match pyContainsStr c0 f with
    | .error e => (⟨touch st.storage k (.dict []), st.disk⟩, .error e)
    | .ok b =>
      match (if b then .ok c0 else pySetItem c0 f (.int 0) :
          Except PyErr Val) with
      | .error e => (⟨touch st.storage k (.dict []), st.disk⟩, .error e)
      | .ok c1 =>
        match pyGetItem c1 f with
        | .error e =>
            (⟨dinsert (touch st.storage k (.dict [])) k c1, st.disk⟩, .error e)
        | .ok v0 =>
          match pyAdd v0 d with
          | .error e =>
              (⟨dinsert (touch st.storage k (.dict [])) k c1, st.disk⟩,
                .error e)
          | .ok v1 =>
            match pySetItem c1 f v1 with
            | .error e =>
                (⟨dinsert (touch st.storage k (.dict [])) k c1, st.disk⟩,
                  .error e)
            | .ok c2 =>
              ((saveSt ⟨dinsert (touch st.storage k (.dict [])) k c2,
                  st.disk⟩).1,
                (saveSt ⟨dinsert (touch st.storage k (.dict [])) k c2,
                  st.disk⟩).2.map (fun _ => v1))
  | none => (⟨touch st.storage k (.dict []), st.disk⟩, .error .typeError)

/-- `lpush(key, value)`: create an empty list when absent, `TypeError` on a
non-list, else insert at the head and persist. -/
def pyLpush (st : St) (k : String) (v : Val) : St × Except PyErr Unit :=
  match alookup st.storage k with
  | none => saveSt ⟨dinsert st.storage k (.list [v]), st.disk⟩
  | some (.list xs) => saveSt ⟨dinsert st.storage k (.list (v :: xs)), st.disk⟩
  | some _ => (st, .error .typeError)

/-- `rpush(key, value)`: like `lpush` but appending at the tail. -/
def pyRpush (st : St) (k : String) (v : Val) : St × Except PyErr Unit :=
  match alookup st.storage k with
  | none => saveSt ⟨dinsert st.storage k (.list [v]), st.disk⟩
  | some (.list xs) =>
      saveSt ⟨dinsert st.storage k (.list (xs ++ [v])), st.disk⟩
  | some _ => (st, .error .typeError)

/-- `lpop(key)`: pop and return the head of a non-empty stored list and
persist; `None` otherwise (missing key, wrong type, empty list). -/
def pyLpop (st : St) (k : String) : St × Except PyErr (Option Val) :=
  match alookup st.storage k with
  | some (.list (x :: xs)) =>
      ((saveSt ⟨dinsert st.storage k (.list xs), st.disk⟩).1,
        (saveSt ⟨dinsert st.storage k (.list xs), st.disk⟩).2.map
          (fun _ => some x))
  | _ => (st, .ok none)

/-- `rpop(key)`: pop and return the tail of a non-empty stored list and
persist; `None` otherwise. -/
def pyRpop (st : St) (k : String) : St × Except PyErr (Option Val) :=
  match alookup st.storage k with
  | some (.list (x :: xs)) =>
      ((saveSt ⟨dinsert st.storage k (.list ((x :: xs).dropLast)),
          st.disk⟩).1,
        (saveSt ⟨dinsert st.storage k (.list ((x :: xs).dropLast)),
          st.disk⟩).2.map (fun _ => (x :: xs).getLast?))
  | _ => (st, .ok none)

/-- `llen(key)`: length of a stored list; 0 when absent or not a list. -/
def pyLlen (st : St) (k : String) : St × Nat :=
  match alookup st.storage k with
  | some (.list xs) => (st, xs.length)
  | _ => (st, 0)

/-- `expire(key, ttl)`: refresh `expires_at` in place on a dict that
already has one, otherwise wrap the current value in a TTL wrapper; then
persist.  No-op when the key is absent. -/
def pyExpire (st : St) (now : Int) (k : String) (ttl : Int) :
    St × Except PyErr Unit :=
  match alookup st.storage k with
  | none => (st, .ok ())
  | some c =>
    match c with
    | .dict fs =>
      if (alookup fs "expires_at").isSome then
        saveSt ⟨dinsert st.storage k
          (.dict (dinsert fs "expires_at" (.int (now + ttl)))), st.disk⟩
      else
        saveSt ⟨dinsert st.storage k
          (.dict [("value", .dict fs), ("expires_at", .int (now + ttl))]),
          st.disk⟩
    | _ =>
        saveSt ⟨dinsert st.storage k
          (.dict [("value", c), ("expires_at", .int (now + ttl))]), st.disk⟩

/-- `keys(pattern='*')`: all key names matching the glob pattern, in
storage order. -/
def pyKeys (st : St) (pat : String) : St × List String :=
  (st, (st.storage.map Prod.fst).filter (fun k => globMatch pat.data k.data))

/-- `incrby(key, increment)`: zero-create when absent, `TypeError` when the
stored value is not an int, else add, persist and return the new value. -/
def pyIncrby (st : St) (k : String) (d : Int) : St × Except PyErr Val :=
  match alookup (touch st.storage k (.int 0)) k with
  | some (.int n) =>
      ((saveSt ⟨dinsert (touch st.storage k (.int 0)) k (.int (n + d)),
          st.disk⟩).1,
        (saveSt ⟨dinsert (touch st.storage k (.int 0)) k (.int (n + d)),
          st.disk⟩).2.map (fun _ => .int (n + d)))
  | _ => (⟨touch st.storage k (.int 0), st.disk⟩, .error .typeError)

/-- `decrby(key, decrement)`: literally `incrby(key, -decrement)`. -/
def pyDecrby (st : St) (k : String) (d : Int) : St × Except PyErr Val :=
  pyIncrby st k (-d)

/-- `exists(key)`: raw membership in the mapping; TTL is not consulted. -/
def pyExists (st : St) (k : String) : St × Bool :=
  (st, (alookup st.storage k).isSome)

/-- `rename(old_key, new_key)`: `KeyError` when the source is absent, else
pop it and assign it to the new key (re-inserted at the end), persist. -/
def pyRename (st : St) (o n : String) : St × Except PyErr Unit :=
  match alookup st.storage o with
  | none => (st, .error .keyError)
  | some v => saveSt ⟨dinsert (eraseK st.storage o) n v, st.disk⟩

/-- `type(key)`: isinstance dispatch — str, list, set, dict, int in that
order (a TTL wrapper is a dict and reports `hash`; a scored list is a
Python list and reports `list`); a top-level tuple would fall through to
`unknown`; absent keys report `none`. -/
def pyType (st : St) (k : String) : St × String :=
  match alookup st.storage k with
  | none => (st, "none")
  | some c =>
    match c with
    | .str _ => (st, "string")
    | .list _ => (st, "list")
    | .set _ => (st, "set")
    | .dict _ => (st, "hash")
    | .int _ => (st, "integer")
    | .tup _ _ => (st, "unknown")

/-- `append(key, value)`: concatenate onto a stored string, `TypeError` on
any other stored value, create the key with the given value when absent;
persist. -/
def pyAppend (st : St) (k : String) (v : String) : St × Except PyErr Unit :=
  match alookup st.storage k with
  | some (.str s) => saveSt ⟨dinsert st.storage k (.str (s ++ v)), st.disk⟩
  | some _ => (st, .error .typeError)
  | none => saveSt ⟨dinsert st.storage k (.str v), st.disk⟩

/-- `lindex(key, index)`: element of a stored list at a (possibly
negative) index, `None` out of range or when not a list. -/
def pyLindex (st : St) (k : String) (i : Int) : St × Option Val :=
  match alookup st.storage k with
  | some (.list xs) => (st, pyIndex xs i)
  | _ => (st, none)

/-- `lrange(key, start, end)`: the Python slice `storage[key][start:end+1]`
of a stored list; `[]` when absent or not a list. -/
def pyLrange (st : St) (k : String) (a b : Int) : St × List Val :=
  match alookup st.storage k with
  | some (.list xs) => (st, pySlice xs a (b + 1))
  | _ => (st, [])

/-- `scard(key)`: cardinality of a stored set; 0 when absent or not a
set. -/
def pyScard (st : St) (k : String) : St × Nat :=
  match alookup st.storage k with
  | some (.set xs) => (st, xs.length)
  | _ => (st, 0)

/-- `hkeys(key)`: field names of a stored dict; `[]` otherwise. -/
def pyHkeys (st : St) (k : String) : St × List String :=
  match alookup st.storage k with
  | some (.dict fs) => (st, fs.map Prod.fst)
  | _ => (st, [])

/-- `hvals(key)`: field values of a stored dict; `[]` otherwise. -/
def pyHvals (st : St) (k : String) : St × List Val :=
  match alookup st.storage k with
  | some (.dict fs) => (st, fs.map Prod.snd)
  | _ => (st, [])

/-- `hlen(key)`: number of fields of a stored dict; 0 otherwise. -/
def pyHlen (st : St) (k : String) : St × Nat :=
  match alookup st.storage k with
  | some (.dict fs) => (st, fs.length)
  | _ => (st, 0)

/-- `zadd(key, score, value)`: create an empty list when absent, append
the `(score, value)` tuple, `list.sort()` the result and persist.  On a
non-list the `.append` attribute is missing (`AttributeError`); on a list
with scalar elements the sort comparison raises `TypeError` after the
append has already mutated the list. -/
def pyZadd (st : St) (k : String) (score member : Val) :
    St × Except PyErr Unit :=
  match alookup (touch st.storage k (.list [])) k with
  | some (.list xs) =>
    match sortZ (xs ++ [.tup score member]) with
    | .ok xs1 =>
        saveSt ⟨dinsert (touch st.storage k (.list [])) k (.list xs1), st.disk⟩
    | .error e =>
        (⟨dinsert (touch st.storage k (.list [])) k
          (.list (xs ++ [.tup score member])), st.disk⟩, .error e)
  | _ => (⟨touch st.storage k (.list []), st.disk⟩, .error .attributeError)

/-- Left-to-right 2-unpacking of slice items for `zrange`'s list
comprehension, collecting the second components. -/
def zcollect : List Val → Except PyErr (List Val)
  | [] => .ok []
  | e :: es =>
    match unpack2 e with
    | .error er => .error er
    | .ok sv =>
      match zcollect es with
      | .error er => .error er
      | .ok vs => .ok (sv.2 :: vs)

/-- `zrange(key, start, end)`: `[v for s, v in storage[key][start:end+1]]`
on a stored list; `[]` when absent or not a list. -/
def pyZrange (st : St) (k : String) (a b : Int) :
    St × Except PyErr (List Val) :=
  match alookup st.storage k with
  | some (.list xs) => (st, zcollect (pySlice xs a (b + 1)))
  | _ => (st, .ok [])

/-- Scan of `zscore`: unpack each entry in order, return the score of the
first entry whose member equals the target. -/
def zfind (target : Val) : List Val → Except PyErr (Option Val)
  | [] => .ok none
  | e :: es =>
    match unpack2 e with
    | .error er => .error er
    | .ok sv => if Val.beq sv.2 target then .ok (some sv.1) else zfind target es

/-- `zscore(key, value)`: first matching member's score in sorted-list
scan order; `None` when not found, absent or not a list. -/
def pyZscore (st : St) (k : String) (v : Val) :
    St × Except PyErr (Option Val) :=
  match alookup st.storage k with
  | some (.list xs) => (st, zfind v xs)
  | _ => (st, .ok none)

/-- Scalar argument passed by an API caller (the spec's data model stores
scalars — strings and integers — as the payloads of collections). -/
inductive Sc where
  | s : String → Sc
  | i : Int → Sc

/-- The value a scalar argument denotes. -/
def Sc.val : Sc → Val
  | .s x => .str x
  | .i n => .int n

/-- One engine API call, with the clock reading passed explicitly for the
operations that consult `time.time()`.  Value payloads are scalars and
`zadd` members are strings, following the spec's data model (§3). -/
inductive Op where
  | set (k : String) (v : Sc)
  | setex (now : Int) (k : String) (ttl : Int) (v : Sc)
  | get (now : Int) (k : String)
  | del (k : String)
  | sadd (k : String) (v : Sc)
  | srem (k : String) (v : Sc)
  | hset (k f : String) (v : Sc)
  | hdel (k f : String)
  | hincrby (k f : String) (d : Int)
  | lpush (k : String) (v : Sc)
  | rpush (k : String) (v : Sc)
  | lpop (k : String)
  | rpop (k : String)
  | expire (now : Int) (k : String) (ttl : Int)
  | incrby (k : String) (d : Int)
  | decrby (k : String) (d : Int)
  | rename (o n : String)
  | append (k : String) (v : String)
  | zadd (k : String) (score : Int) (m : String)

/-- The state transition an API call performs (its return value and any
raised exception go to the caller; a raised exception does not undo the
in-memory mutations already applied, exactly as in the Python code). -/
def applyOp : Op → St → St
  | .set k v, st => (pySet st k v.val).1
  | .setex now k ttl v, st => (pySetex st now k ttl v.val).1
  | .get now k, st => (pyGet st now k).1
  | .del k, st => (pyDelete st k).1
  | .sadd k v, st => (pySadd st k v.val).1
  | .srem k v, st => (pySrem st k v.val).1
  | .hset k f v, st => (pyHset st k f v.val).1
  | .hdel k f, st => (pyHdel st k f).1
  | .hincrby k f d, st => (pyHincrby st k f d).1
  | .lpush k v, st => (pyLpush st k v.val).1
  | .rpush k v, st => (pyRpush st k v.val).1
  | .lpop k, st => (pyLpop st k).1
  | .rpop k, st => (pyRpop st k).1
  | .expire now k ttl, st => (pyExpire st now k ttl).1
  | .incrby k d, st => (pyIncrby st k d).1
  | .decrby k d, st => (pyDecrby st k d).1
  | .rename o n, st => (pyRename st o n).1
  | .append k v, st => (pyAppend st k v).1
  | .zadd k s m, st => (pyZadd st k (.int s) (.str m)).1

/-- Engine states reachable through the API from a fresh instance. -/
inductive Reachable : St → Prop where
  | init : Reachable stInit
  | step (o : Op) {s : St} : Reachable s → Reachable (applyOp o s)

/-- Is the (optional) stored value a plain list whose elements are all
primitive scalars (the documented snapshot ambiguity)? -/
def isPrimListO : Option Val → Bool
  | some (.list xs) => xs.all scOK
  | _ => false

/-- Concrete state: a fresh engine after `zadd('k', 1, 'x')` — the key
holds the scored list `[(1, 'x')]`. -/
def stZ1 : St := applyOp (.zadd "k" 1 "x") stInit

/-- Concrete state: a fresh engine after `lpush('k', 'a')` then
`rpush('k', 'b')` — the key holds `['a', 'b']`. -/
def stAB : St := applyOp (.rpush "k" (.s "b")) (applyOp (.lpush "k" (.s "a")) stInit)

/-- Concrete state: a fresh engine after `rpush('k', 'a')` — the key holds
the plain list `['a']`. -/
def stLa : St := applyOp (.rpush "k" (.s "a")) stInit

/-- Concrete state: a fresh engine after `setex('k', 3, 'v')` called at
time 2 — the key holds `{'value': 'v', 'expires_at': 5}`. -/
def stTtl : St := applyOp (.setex 2 "k" 3 (.s "v")) stInit

/-- Concrete state: a fresh engine after `hset('k', 'expires_at', 100)` —
the key holds the user hash `{'expires_at': 100}` with no `'value'`
field. -/
def stEk : St := applyOp (.hset "k" "expires_at" (.i 100)) stInit

/-- Discriminator: is the stored value a Python dict? -/
def isDict : Val → Bool
  | .dict _ => true
  | _ => false

/-- Discriminator: is the stored value a Python int? -/
def isInt : Val → Bool
  | .int _ => true
  | _ => false

/-- Discriminator: is the stored value a Python str? -/
def isStr : Val → Bool
  | .str _ => true
  | _ => false

/-- Discriminator: is the stored value a Python list? -/
def isList : Val → Bool
  | .list _ => true
  | _ => false

/-- Discriminator: is the stored value a Python set? -/
def isSet : Val → Bool
  | .set _ => true
  | _ => false

/-- Concrete state: a fresh engine after `sadd('k', 1)` — the key holds
the set `{1}`. -/
def stSet : St := applyOp (.sadd "k" (.i 1)) stInit

/-- The snapshot written for `stSet`. -/
def jSet : Json := .obj [("k", .arr [.num 1])]

/-- The snapshot written for `stZ1`: the `(1, 'x')` tuple has become a
two-element JSON array. -/
def jZ : Json := .obj [("k", .arr [.arr [.num 1, .str "x"]])]

/-- Concrete state: a fresh engine after `zadd('k', 1, 'y')` then
`zadd('k', 3, 'x')` — the key holds `[(1, 'y'), (3, 'x')]`. -/
def stYX : St := applyOp (.zadd "k" 3 "x") (applyOp (.zadd "k" 1 "y") stInit)

theorem saveSt_storage (st : St) : (saveSt st).1.storage = st.storage := by
  unfold saveSt
  cases encSt st.storage <;> rfl

theorem alookup_dinsert_eq (σ : List (String × Val)) (k : String) (v : Val) :
    alookup (dinsert σ k v) k = some v := by
  induction σ with
  | nil => simp [dinsert, alookup]
  | cons kv rest ih =>
    obtain ⟨k', v'⟩ := kv
    by_cases h : k' = k
    · subst h; simp [dinsert, alookup]
    · simp [dinsert, alookup, h, ih]

theorem alookup_dinsert_ne (σ : List (String × Val)) {k l : String} (v : Val)
    (h : l ≠ k) : alookup (dinsert σ k v) l = alookup σ l := by
  induction σ with
  | nil => simp [dinsert, alookup, Ne.symm h]
  | cons kv rest ih =>
    obtain ⟨k', v'⟩ := kv
    by_cases hk : k' = k
    · subst hk
      simp [dinsert, alookup, Ne.symm h]
    · by_cases hl : k' = l
      · subst hl
        simp [dinsert, alookup, hk]
      · simp [dinsert, alookup, hk, hl, ih]

theorem dinsert_self {σ : List (String × Val)} {k : String} {v : Val}
    (h : alookup σ k = some v) : dinsert σ k v = σ := by
  induction σ with
  | nil => simp [alookup] at h
  | cons kv rest ih =>
    obtain ⟨k', v'⟩ := kv
    by_cases hk : k' = k
    · subst hk
      simp [alookup] at h
      simp [dinsert, h]
    · simp [alookup, hk] at h
      simp [dinsert, hk, ih h]

theorem any_keys_dinsert {σ : List (String × Val)} {k : String} {v : Val}
    {p : String → Bool}
    (h : ((dinsert σ k v).map Prod.fst).any p = true) :
    (σ.map Prod.fst).any p = true ∨ p k = true := by
  induction σ with
  | nil =>
    simp only [dinsert, List.map_cons, List.map_nil, List.any_cons,
      List.any_nil, Bool.or_false] at h
    exact .inr h
  | cons kv rest ih =>
    obtain ⟨k', v'⟩ := kv
    by_cases hk : k' = k
    · subst hk
      simp only [dinsert, if_pos rfl] at h
      exact .inl h
    · simp only [dinsert, if_neg hk] at h
      simp only [List.map_cons, List.any_cons] at h ⊢
      rcases Bool.or_eq_true_iff.mp h with h1 | h2
      · exact .inl (Bool.or_eq_true_iff.mpr (.inl h1))
      · rcases ih h2 with h3 | h3
        · exact .inl (Bool.or_eq_true_iff.mpr (.inr h3))
        · exact .inr h3

theorem kNodup_dinsert {σ : List (String × Val)} {k : String} {v : Val}
    (h : kNodup (σ.map Prod.fst) = true) :
    kNodup ((dinsert σ k v).map Prod.fst) = true := by
  induction σ with
  | nil => simp [dinsert, kNodup]
  | cons kv rest ih =>
    obtain ⟨k', v'⟩ := kv
    simp only [List.map_cons, kNodup, Bool.and_eq_true] at h
    obtain ⟨h1, h2⟩ := h
    by_cases hk : k' = k
    · subst hk
      simp only [dinsert, if_pos rfl]
      simp only [List.map_cons, kNodup, Bool.and_eq_true]
      exact ⟨h1, h2⟩
    · simp only [dinsert, if_neg hk]
      simp only [List.map_cons, kNodup, Bool.and_eq_true]
      refine ⟨?_, ih h2⟩
      simp only [Bool.not_eq_true'] at h1 ⊢
      by_contra hc
      simp only [Bool.not_eq_false] at hc
      rcases any_keys_dinsert hc with ha | ha
      · rw [h1] at ha; exact Bool.false_ne_true ha
      · simp at ha; exact hk ha

theorem all_eraseK {σ : List (String × Val)} {k : String}
    {f : String × Val → Bool} (h : σ.all f = true) :
    (eraseK σ k).all f = true := by
  induction σ with
  | nil => simp [eraseK]
  | cons kv rest ih =>
    obtain ⟨k', v'⟩ := kv
    simp only [List.all_cons, Bool.and_eq_true] at h
    by_cases hk : k' = k
    · subst hk; simp only [eraseK, if_pos rfl]; exact h.2
    · simp only [eraseK, if_neg hk, List.all_cons,
        Bool.and_eq_true]
      exact ⟨h.1, ih h.2⟩

theorem any_keys_eraseK {σ : List (String × Val)} {k : String}
    {p : String → Bool}
    (h : ((eraseK σ k).map Prod.fst).any p = true) :
    (σ.map Prod.fst).any p = true := by
  induction σ with
  | nil => simpa [eraseK] using h
  | cons kv rest ih =>
    obtain ⟨k', v'⟩ := kv
    by_cases hk : k' = k
    · subst hk
      simp only [eraseK, if_pos rfl] at h
      simp only [List.map_cons, List.any_cons]
      exact Bool.or_eq_true_iff.mpr (.inr h)
    · simp only [eraseK, if_neg hk, List.map_cons,
        List.any_cons] at h ⊢
      rcases Bool.or_eq_true_iff.mp h with h1 | h2
      · exact Bool.or_eq_true_iff.mpr (.inl h1)
      · exact Bool.or_eq_true_iff.mpr (.inr (ih h2))

theorem kNodup_eraseK {σ : List (String × Val)} {k : String}
    (h : kNodup (σ.map Prod.fst) = true) :
    kNodup ((eraseK σ k).map Prod.fst) = true := by
  induction σ with
  | nil => simp [eraseK, kNodup]
  | cons kv rest ih =>
    obtain ⟨k', v'⟩ := kv
    simp only [List.map_cons, kNodup, Bool.and_eq_true] at h
    obtain ⟨h1, h2⟩ := h
    by_cases hk : k' = k
    · subst hk; simp only [eraseK, if_pos rfl]; exact h2
    · simp only [eraseK, if_neg hk, List.map_cons, kNodup,
        Bool.and_eq_true]
      refine ⟨?_, ih h2⟩
      simp only [Bool.not_eq_true'] at h1 ⊢
      by_contra hc
      simp only [Bool.not_eq_false] at hc
      have hc2 := any_keys_eraseK hc
      rw [h1] at hc2
      exact Bool.false_ne_true hc2

theorem all_dinsert {σ : List (String × Val)} {k : String} {v : Val}
    {f : String × Val → Bool} (h : σ.all f = true)
    (hv : ∀ s, f (s, v) = true) : (dinsert σ k v).all f = true := by
  induction σ with
  | nil => simp [dinsert, hv]
  | cons kv rest ih =>
    obtain ⟨k', v'⟩ := kv
    simp only [List.all_cons, Bool.and_eq_true] at h
    by_cases hk : k' = k
    · subst hk
      simp only [dinsert, if_pos rfl, if_true, List.all_cons, Bool.and_eq_true]
      exact ⟨hv _, h.2⟩
    · simp only [dinsert, if_neg hk, List.all_cons,
        Bool.and_eq_true]
      exact ⟨h.1, ih h.2⟩

theorem alookup_all {σ : List (String × Val)} {k : String} {v : Val}
    {f : String × Val → Bool} (hl : alookup σ k = some v)
    (h : σ.all f = true) : f (k, v) = true := by
  induction σ with
  | nil => simp [alookup] at hl
  | cons kv rest ih =>
    obtain ⟨k', v'⟩ := kv
    simp only [List.all_cons, Bool.and_eq_true] at h
    by_cases hk : k' = k
    · subst hk
      simp only [alookup, if_pos rfl] at hl
      cases hl
      exact h.1
    · simp only [alookup, if_neg hk] at hl
      exact ih hl h.2

theorem scOK_val (v : Sc) : scOK v.val = true := by
  cases v <;> rfl

theorem ValOK_val (v : Sc) : ValOK v.val = true := by
  cases v <;> rfl

theorem topOK_val (v : Sc) : topOK v.val = true := by
  cases v <;> rfl

theorem pNodup_append_not_mem {xs : List Val} {v : Val}
    (h : pNodup xs = true) (hm : xs.any (fun y => Val.beq y v) = false) :
    pNodup (xs ++ [v]) = true := by
  induction xs with
  | nil => simp [pNodup]
  | cons x rest ih =>
    simp only [pNodup, Bool.and_eq_true, Bool.not_eq_true'] at h
    simp only [List.any_cons, Bool.or_eq_false_iff] at hm
    simp only [List.cons_append, pNodup, Bool.and_eq_true, Bool.not_eq_true']
    refine ⟨?_, ih h.2 hm.2⟩
    simp only [List.append_eq, List.any_append, List.any_cons, List.any_nil,
      Bool.or_false, Bool.or_eq_false_iff]
    exact ⟨h.1, hm.1⟩

theorem all_append_one {xs : List Val} {v : Val} {p : Val → Bool}
    (h : xs.all p = true) (hv : p v = true) : (xs ++ [v]).all p = true := by
  simp [List.all_append, h, hv]

theorem any_removeFirstB {xs : List Val} {v : Val} {p : Val → Bool}
    (h : (removeFirstB v xs).any p = true) : xs.any p = true := by
  induction xs with
  | nil => simpa [removeFirstB] using h
  | cons x rest ih =>
    simp only [removeFirstB] at h
    by_cases hb : Val.beq x v = true
    · rw [if_pos hb] at h
      simp only [List.any_cons]
      exact Bool.or_eq_true_iff.mpr (.inr h)
    · rw [if_neg hb] at h
      simp only [List.any_cons] at h ⊢
      rcases Bool.or_eq_true_iff.mp h with h1 | h2
      · exact Bool.or_eq_true_iff.mpr (.inl h1)
      · exact Bool.or_eq_true_iff.mpr (.inr (ih h2))

theorem all_removeFirstB {xs : List Val} {v : Val} {p : Val → Bool}
    (h : xs.all p = true) : (removeFirstB v xs).all p = true := by
  induction xs with
  | nil => simpa [removeFirstB] using h
  | cons x rest ih =>
    simp only [List.all_cons, Bool.and_eq_true] at h
    simp only [removeFirstB]
    by_cases hb : Val.beq x v = true
    · rw [if_pos hb]; exact h.2
    · rw [if_neg hb]
      simp only [List.all_cons, Bool.and_eq_true]
      exact ⟨h.1, ih h.2⟩

theorem pNodup_removeFirstB {xs : List Val} {v : Val}
    (h : pNodup xs = true) : pNodup (removeFirstB v xs) = true := by
  induction xs with
  | nil => simpa [removeFirstB] using h
  | cons x rest ih =>
    simp only [pNodup, Bool.and_eq_true, Bool.not_eq_true'] at h
    simp only [removeFirstB]
    by_cases hb : Val.beq x v = true
    · rw [if_pos hb]; exact h.2
    · rw [if_neg hb]
      simp only [pNodup, Bool.and_eq_true, Bool.not_eq_true']
      refine ⟨?_, ih h.2⟩
      by_contra hc
      simp only [Bool.not_eq_false] at hc
      have := any_removeFirstB hc
      rw [h.1] at this
      exact Bool.false_ne_true this

theorem FieldsOK_dinsert {fs : List (String × Val)} {f : String} {v : Val}
    (h : FieldsOK fs = true) (hv : ValOK v = true) :
    FieldsOK (dinsert fs f v) = true := by
  induction fs with
  | nil => simp [dinsert, FieldsOK, hv]
  | cons kv rest ih =>
    obtain ⟨k', v'⟩ := kv
    simp only [FieldsOK, Bool.and_eq_true] at h
    by_cases hk : k' = f
    · subst hk
      simp only [dinsert, if_pos rfl, if_true, FieldsOK, Bool.and_eq_true]
      exact ⟨hv, h.2⟩
    · simp only [dinsert, if_neg hk, FieldsOK, Bool.and_eq_true]
      exact ⟨h.1, ih h.2⟩

theorem FieldsOK_eraseK {fs : List (String × Val)} {f : String}
    (h : FieldsOK fs = true) : FieldsOK (eraseK fs f) = true := by
  induction fs with
  | nil => simpa [eraseK] using h
  | cons kv rest ih =>
    obtain ⟨k', v'⟩ := kv
    simp only [FieldsOK, Bool.and_eq_true] at h
    by_cases hk : k' = f
    · subst hk
      simp only [eraseK, if_pos rfl, if_true]
      exact h.2
    · simp only [eraseK, if_neg hk, FieldsOK, Bool.and_eq_true]
      exact ⟨h.1, ih h.2⟩

theorem ValOK_dict_dinsert {fs : List (String × Val)} {f : String} {v : Val}
    (h : ValOK (.dict fs) = true) (hv : ValOK v = true) :
    ValOK (.dict (dinsert fs f v)) = true := by
  simp only [ValOK, Bool.and_eq_true] at h ⊢
  exact ⟨kNodup_dinsert h.1, FieldsOK_dinsert h.2 hv⟩

theorem ValOK_dict_eraseK {fs : List (String × Val)} {f : String}
    (h : ValOK (.dict fs) = true) : ValOK (.dict (eraseK fs f)) = true := by
  simp only [ValOK, Bool.and_eq_true] at h ⊢
  exact ⟨kNodup_eraseK h.1, FieldsOK_eraseK h.2⟩

theorem ValOK_wrapper {v : Val} (h : ValOK v = true) (t : Int) :
    ValOK (.dict [("value", v), ("expires_at", .int t)]) = true := by
  simp only [ValOK, FieldsOK, kNodup, List.map_cons, List.map_nil,
    List.any_cons, List.any_nil, Bool.and_eq_true]
  refine ⟨by decide, h, by simp [ValOK]⟩

theorem ValsOK_append_one {xs : List Val} {v : Val}
    (h : ValsOK xs = true) (hv : ValOK v = true) :
    ValsOK (xs ++ [v]) = true := by
  induction xs with
  | nil => simp [ValsOK, hv]
  | cons x rest ih =>
    simp only [ValsOK, Bool.and_eq_true] at h
    simp only [List.cons_append, ValsOK, Bool.and_eq_true]
    exact ⟨h.1, ih h.2⟩

theorem ValsOK_cons {x : Val} {xs : List Val}
    (hx : ValOK x = true) (h : ValsOK xs = true) :
    ValsOK (x :: xs) = true := by
  simp only [ValsOK, Bool.and_eq_true]
  exact ⟨hx, h⟩

theorem ValsOK_head {x : Val} {xs : List Val}
    (h : ValsOK (x :: xs) = true) : ValOK x = true ∧ ValsOK xs = true := by
  simpa only [ValsOK, Bool.and_eq_true] using h

theorem ValsOK_dropLast {xs : List Val} (h : ValsOK xs = true) :
    ValsOK xs.dropLast = true := by
  induction xs with
  | nil => simpa using h
  | cons x rest ih =>
    cases rest with
    | nil => simp [ValsOK]
    | cons y t =>
      have hh := ValsOK_head h
      have := ih hh.2
      simp only [List.dropLast_cons_of_ne_nil (by simp : y :: t ≠ [])]
      exact ValsOK_cons hh.1 this

theorem ValsOK_removeFirstB {xs : List Val} {v : Val}
    (h : ValsOK xs = true) : ValsOK (removeFirstB v xs) = true := by
  induction xs with
  | nil => simpa [removeFirstB] using h
  | cons x rest ih =>
    have hh := ValsOK_head h
    simp only [removeFirstB]
    by_cases hb : Val.beq x v = true
    · rw [if_pos hb]; exact hh.2
    · rw [if_neg hb]; exact ValsOK_cons hh.1 (ih hh.2)

theorem ValsOK_zinsert {x : Val} {l : List Val}
    (hx : ValOK x = true) (h : ValsOK l = true) :
    ValsOK (zinsert x l) = true := by
  induction l with
  | nil => simp [zinsert, ValsOK, hx]
  | cons y ys ih =>
    have hh := ValsOK_head h
    simp only [zinsert]
    by_cases hz : zLe y x = true
    · rw [if_pos hz]
      exact ValsOK_cons hh.1 (ih hh.2)
    · rw [if_neg hz]
      exact ValsOK_cons hx (ValsOK_cons hh.1 hh.2)

theorem ValsOK_isortZ {l : List Val} (h : ValsOK l = true) :
    ValsOK (isortZ l) = true := by
  induction l with
  | nil => simpa [isortZ] using h
  | cons x xs ih =>
    have hh := ValsOK_head h
    simp only [isortZ]
    exact ValsOK_zinsert hh.1 (ih hh.2)

theorem ValsOK_sortZ {xs ys : List Val} (h : ValsOK xs = true)
    (hs : sortZ xs = .ok ys) : ValsOK ys = true := by
  unfold sortZ at hs
  by_cases h1 : xs.all isZTup = true
  · rw [if_pos h1] at hs
    cases hs
    exact ValsOK_isortZ h
  · rw [if_neg h1] at hs
    by_cases h2 : xs.length ≤ 1
    · rw [if_pos h2] at hs
      cases hs
      exact h
    · rw [if_neg h2] at hs
      cases hs

theorem StOK_dinsert {σ : List (String × Val)} {k : String} {v : Val}
    (h : StOK σ = true) (hv : ValOK v = true) (ht : topOK v = true) :
    StOK (dinsert σ k v) = true := by
  simp only [StOK, Bool.and_eq_true] at h ⊢
  refine ⟨kNodup_dinsert h.1, all_dinsert h.2 (fun s => ?_)⟩
  simp [hv, ht]

theorem StOK_eraseK {σ : List (String × Val)} {k : String}
    (h : StOK σ = true) : StOK (eraseK σ k) = true := by
  simp only [StOK, Bool.and_eq_true] at h ⊢
  exact ⟨kNodup_eraseK h.1, all_eraseK h.2⟩

theorem StOK_lookup {σ : List (String × Val)} {k : String} {v : Val}
    (h : StOK σ = true) (hl : alookup σ k = some v) :
    ValOK v = true ∧ topOK v = true := by
  simp only [StOK, Bool.and_eq_true] at h
  have := alookup_all hl h.2
  simpa using this

theorem StOK_touch {σ : List (String × Val)} {k : String} {dflt : Val}
    (h : StOK σ = true) (hd : ValOK dflt = true) (ht : topOK dflt = true) :
    StOK (touch σ k dflt) = true := by
  unfold touch
  split
  · exact h
  · exact StOK_dinsert h hd ht

theorem alookup_touch (σ : List (String × Val)) (k : String) (dflt : Val) :
    alookup (touch σ k dflt) k = some ((alookup σ k).getD dflt) := by
  unfold touch
  rcases hl : alookup σ k with _ | v
  · simp [hl, alookup_dinsert_eq]
  · simp [hl]

theorem ValOK_scalars (s : String) (n : Int) :
    ValOK (.str s) = true ∧ ValOK (.int n) = true := by
  constructor <;> simp [ValOK]

theorem stok_incrby (st : St) (k : String) (d : Int)
    (h : StOK st.storage = true) :
    StOK ((pyIncrby st k d).1).storage = true := by
  have h0 : StOK (touch st.storage k (.int 0)) = true :=
    StOK_touch h (by simp [ValOK]) rfl
  rcases hv : alookup (touch st.storage k (.int 0)) k with _ | val
  · simp only [pyIncrby, hv]; exact h0
  · cases val with
    | int n =>
      simp only [pyIncrby, hv, saveSt_storage]
      exact StOK_dinsert h0 (by simp [ValOK]) rfl
    | str s => simp only [pyIncrby, hv]; exact h0
    | list xs => simp only [pyIncrby, hv]; exact h0
    | tup a b => simp only [pyIncrby, hv]; exact h0
    | set xs => simp only [pyIncrby, hv]; exact h0
    | dict fs => simp only [pyIncrby, hv]; exact h0

theorem stok_zadd (st : St) (k : String) (sc : Int) (m : String)
    (h : StOK st.storage = true) :
    StOK ((pyZadd st k (.int sc) (.str m)).1).storage = true := by
  have h0 : StOK (touch st.storage k (.list [])) = true :=
    StOK_touch h (by simp [ValOK, ValsOK]) rfl
  rcases hv : alookup (touch st.storage k (.list [])) k with _ | val
  · simp only [pyZadd, hv]; exact h0
  · cases val with
    | list xs =>
      have hok : ValsOK xs = true := by
        have := (StOK_lookup h0 hv).1
        simpa [ValOK] using this
      have happ : ValsOK (xs ++ [.tup (.int sc) (.str m)]) = true :=
        ValsOK_append_one hok (by simp [ValOK])
      rcases hs : sortZ (xs ++ [.tup (.int sc) (.str m)]) with e | xs1
      · simp only [pyZadd, hv, hs]
        exact StOK_dinsert h0 (by simpa [ValOK] using happ) rfl
      · simp only [pyZadd, hv, hs, saveSt_storage]
        exact StOK_dinsert h0 (by simpa [ValOK] using ValsOK_sortZ happ hs) rfl
    | str s => simp only [pyZadd, hv]; exact h0
    | int n => simp only [pyZadd, hv]; exact h0
    | tup a b => simp only [pyZadd, hv]; exact h0
    | set xs => simp only [pyZadd, hv]; exact h0
    | dict fs => simp only [pyZadd, hv]; exact h0

theorem stok_hincrby (st : St) (k f : String) (d : Int)
    (h : StOK st.storage = true) :
    StOK ((pyHincrby st k f d).1).storage = true := by
  have h0 : StOK (touch st.storage k (.dict [])) = true :=
    StOK_touch h (by simp [ValOK, FieldsOK, kNodup]) rfl
  rcases hv : alookup (touch st.storage k (.dict [])) k with _ | c0
  · simp only [pyHincrby, hv]; exact h0
  · have hc0ok := (StOK_lookup h0 hv).1
    have hself : dinsert (touch st.storage k (.dict [])) k c0 =
        touch st.storage k (.dict []) := dinsert_self hv
    cases c0 with
    | dict fs =>
      rcases hb : alookup fs f with _ | v0
      · -- field absent: zero-init, then add to 0
        simp only [pyHincrby, hv, pyContainsStr, hb, Option.isSome_none,
          if_neg Bool.false_ne_true, pySetItem, pyGetItem,
          alookup_dinsert_eq, pyAdd, saveSt_storage]
        exact StOK_dinsert h0
          (ValOK_dict_dinsert (ValOK_dict_dinsert hc0ok (by simp [ValOK]))
            (by simp [ValOK])) rfl
      · -- field present
        cases v0 with
        | int n =>
          simp only [pyHincrby, hv, pyContainsStr, hb, Option.isSome_some,
            if_pos rfl, if_true, pyGetItem, pyAdd, pySetItem,
            saveSt_storage]
          exact StOK_dinsert h0
            (ValOK_dict_dinsert hc0ok (by simp [ValOK])) rfl
        | str s =>
          simp only [pyHincrby, hv, pyContainsStr, hb, Option.isSome_some,
            if_pos rfl, if_true, pyGetItem, pyAdd, hself]
          exact h0
        | list xs =>
          simp only [pyHincrby, hv, pyContainsStr, hb, Option.isSome_some,
            if_pos rfl, if_true, pyGetItem, pyAdd, hself]
          exact h0
        | tup a b =>
          simp only [pyHincrby, hv, pyContainsStr, hb, Option.isSome_some,
            if_pos rfl, if_true, pyGetItem, pyAdd, hself]
          exact h0
        | set xs =>
          simp only [pyHincrby, hv, pyContainsStr, hb, Option.isSome_some,
            if_pos rfl, if_true, pyGetItem, pyAdd, hself]
          exact h0
        | dict gs =>
          simp only [pyHincrby, hv, pyContainsStr, hb, Option.isSome_some,
            if_pos rfl, if_true, pyGetItem, pyAdd, hself]
          exact h0
    | str s =>
      by_cases hb : isSub f.data s.data = true
      · simp only [pyHincrby, hv, pyContainsStr, hb, if_pos rfl, if_true,
          pyGetItem, hself]
        exact h0
      · simp only [pyHincrby, hv, pyContainsStr,
          (Bool.not_eq_true _).mp hb, if_false, pySetItem]
        exact h0
    | int n => simp only [pyHincrby, hv, pyContainsStr]; exact h0
    | list xs =>
      by_cases hb : xs.any (fun x => Val.beq x (.str f)) = true
      · simp only [pyHincrby, hv, pyContainsStr, hb, if_pos rfl, if_true,
          pyGetItem, hself]
        exact h0
      · simp only [pyHincrby, hv, pyContainsStr,
          (Bool.not_eq_true _).mp hb, if_false, pySetItem]
        exact h0
    | set xs =>
      by_cases hb : xs.any (fun x => Val.beq x (.str f)) = true
      · simp only [pyHincrby, hv, pyContainsStr, hb, if_pos rfl, if_true,
          pyGetItem, hself]
        exact h0
      · simp only [pyHincrby, hv, pyContainsStr,
          (Bool.not_eq_true _).mp hb, if_false, pySetItem]
        exact h0
    | tup a b =>
      by_cases hb : (Val.beq a (.str f) || Val.beq b (.str f)) = true
      · simp only [pyHincrby, hv, pyContainsStr, hb, if_pos rfl, if_true,
          pyGetItem, hself]
        exact h0
      · simp only [pyHincrby, hv, pyContainsStr,
          (Bool.not_eq_true _).mp hb, if_false, pySetItem]
        exact h0

theorem stok_preserved (o : Op) (st : St) (h : StOK st.storage = true) :
    StOK (applyOp o st).storage = true := by
  cases o with
  | set k v =>
    simp only [applyOp, pySet, saveSt_storage]
    exact StOK_dinsert h (ValOK_val v) (topOK_val v)
  | setex now k ttl v =>
    simp only [applyOp, pySetex, saveSt_storage]
    exact StOK_dinsert h (ValOK_wrapper (ValOK_val v) _) rfl
  | get now k =>
    rcases hl : alookup st.storage k with _ | item
    · simp only [applyOp, pyGet, hl]; exact h
    · cases item with
      | dict fs =>
        rcases he : alookup fs "expires_at" with _ | ea
        · simp only [applyOp, pyGet, hl, he]; exact h
        · cases ea with
          | int t =>
            by_cases hgt : now > t
            · simp only [applyOp, pyGet, hl, he, pyGtE,
                decide_eq_true hgt, saveSt_storage]
              exact StOK_eraseK h
            · simp only [applyOp, pyGet, hl, he, pyGtE,
                decide_eq_false hgt]
              rcases alookup fs "value" with _ | v <;> exact h
          | str a => simp only [applyOp, pyGet, hl, he, pyGtE]; exact h
          | list a => simp only [applyOp, pyGet, hl, he, pyGtE]; exact h
          | tup a b => simp only [applyOp, pyGet, hl, he, pyGtE]; exact h
          | set a => simp only [applyOp, pyGet, hl, he, pyGtE]; exact h
          | dict a => simp only [applyOp, pyGet, hl, he, pyGtE]; exact h
      | str s => simp only [applyOp, pyGet, hl]; exact h
      | int n => simp only [applyOp, pyGet, hl]; exact h
      | list xs => simp only [applyOp, pyGet, hl]; exact h
      | tup a b => simp only [applyOp, pyGet, hl]; exact h
      | set xs => simp only [applyOp, pyGet, hl]; exact h
  | del k =>
    rcases hl : alookup st.storage k with _ | item
    · simp only [applyOp, pyDelete, hl]; exact h
    · simp only [applyOp, pyDelete, hl, saveSt_storage]
      exact StOK_eraseK h
  | sadd k v =>
    rcases hl : alookup st.storage k with _ | item
    · simp only [applyOp, pySadd, hl, saveSt_storage]
      refine StOK_dinsert h ?_ rfl
      simp [ValOK, pNodup, scOK_val v]
    · cases item with
      | set xs =>
        simp only [applyOp, pySadd, hl, saveSt_storage]
        have hok := (StOK_lookup h hl).1
        simp only [ValOK, Bool.and_eq_true] at hok
        refine StOK_dinsert h ?_ rfl
        by_cases hm : xs.any (fun y => Val.beq y (Sc.val v)) = true
        · simp only [if_pos hm, ValOK, Bool.and_eq_true]
          exact hok
        · simp only [if_neg hm, ValOK, Bool.and_eq_true]
          refine ⟨all_append_one hok.1 (scOK_val v), ?_⟩
          exact pNodup_append_not_mem hok.2 ((Bool.not_eq_true _).mp hm)
      | str s => simp only [applyOp, pySadd, hl]; exact h
      | int n => simp only [applyOp, pySadd, hl]; exact h
      | list xs => simp only [applyOp, pySadd, hl]; exact h
      | tup a b => simp only [applyOp, pySadd, hl]; exact h
      | dict fs => simp only [applyOp, pySadd, hl]; exact h
  | srem k v =>
    rcases hl : alookup st.storage k with _ | item
    · simp only [applyOp, pySrem, hl]; exact h
    · have hok := (StOK_lookup h hl).1
      rcases hc : pyContainsVal item (Sc.val v) with e | b
      · simp only [applyOp, pySrem, hl, hc]; exact h
      · cases b with
        | false => simp only [applyOp, pySrem, hl, hc]; exact h
        | true =>
          rcases hr : pyRemoveVal item (Sc.val v) with e | c1
          · simp only [applyOp, pySrem, hl, hc, hr]; exact h
          · simp only [applyOp, pySrem, hl, hc, hr, saveSt_storage]
            refine StOK_dinsert h ?_ ?_
            · cases item with
              | set xs =>
                simp only [pyRemoveVal] at hr
                cases hr
                simp only [ValOK, Bool.and_eq_true] at hok ⊢
                exact ⟨all_removeFirstB hok.1, pNodup_removeFirstB hok.2⟩
              | list xs =>
                simp only [pyRemoveVal] at hr
                cases hr
                simp only [ValOK] at hok ⊢
                exact ValsOK_removeFirstB hok
              | str s => simp [pyRemoveVal] at hr
              | int n => simp [pyRemoveVal] at hr
              | tup a b => simp [pyRemoveVal] at hr
              | dict fs => simp [pyRemoveVal] at hr
            · cases item with
              | set xs => simp only [pyRemoveVal] at hr; cases hr; rfl
              | list xs => simp only [pyRemoveVal] at hr; cases hr; rfl
              | str s => simp [pyRemoveVal] at hr
              | int n => simp [pyRemoveVal] at hr
              | tup a b => simp [pyRemoveVal] at hr
              | dict fs => simp [pyRemoveVal] at hr
  | hset k f v =>
    rcases hl : alookup st.storage k with _ | item
    · simp only [applyOp, pyHset, hl, saveSt_storage]
      refine StOK_dinsert h ?_ rfl
      simp [ValOK, FieldsOK, kNodup, ValOK_val v]
    · rcases hsi : pySetItem item f (Sc.val v) with e | c1
      · simp only [applyOp, pyHset, hl, hsi]; exact h
      · simp only [applyOp, pyHset, hl, hsi, saveSt_storage]
        have hok := (StOK_lookup h hl).1
        cases item with
        | dict fs =>
          simp only [pySetItem] at hsi
          cases hsi
          exact StOK_dinsert h (ValOK_dict_dinsert hok (ValOK_val v)) rfl
        | str s => simp [pySetItem] at hsi
        | int n => simp [pySetItem] at hsi
        | list xs => simp [pySetItem] at hsi
        | tup a b => simp [pySetItem] at hsi
        | set xs => simp [pySetItem] at hsi
  | hdel k f =>
    rcases hl : alookup st.storage k with _ | item
    · simp only [applyOp, pyHdel, hl]; exact h
    · rcases hc : pyContainsStr item f with e | b
      · simp only [applyOp, pyHdel, hl, hc]; exact h
      · cases b with
        | false => simp only [applyOp, pyHdel, hl, hc]; exact h
        | true =>
          rcases hd : pyDelItem item f with e | c1
          · simp only [applyOp, pyHdel, hl, hc, hd]; exact h
          · simp only [applyOp, pyHdel, hl, hc, hd, saveSt_storage]
            have hok := (StOK_lookup h hl).1
            cases item with
            | dict fs =>
              simp only [pyDelItem] at hd
              cases hd
              exact StOK_dinsert h (ValOK_dict_eraseK hok) rfl
            | str s => simp [pyDelItem] at hd
            | int n => simp [pyDelItem] at hd
            | list xs => simp [pyDelItem] at hd
            | tup a b => simp [pyDelItem] at hd
            | set xs => simp [pyDelItem] at hd
  | hincrby k f d => exact stok_hincrby st k f d h
  | lpush k v =>
    rcases hl : alookup st.storage k with _ | item
    · simp only [applyOp, pyLpush, hl, saveSt_storage]
      refine StOK_dinsert h ?_ rfl
      simp [ValOK, ValsOK, ValOK_val v]
    · cases item with
      | list xs =>
        simp only [applyOp, pyLpush, hl, saveSt_storage]
        have hok := (StOK_lookup h hl).1
        simp only [ValOK] at hok
        refine StOK_dinsert h ?_ rfl
        simpa [ValOK] using ValsOK_cons (ValOK_val v) hok
      | str s => simp only [applyOp, pyLpush, hl]; exact h
      | int n => simp only [applyOp, pyLpush, hl]; exact h
      | tup a b => simp only [applyOp, pyLpush, hl]; exact h
      | set xs => simp only [applyOp, pyLpush, hl]; exact h
      | dict fs => simp only [applyOp, pyLpush, hl]; exact h
  | rpush k v =>
    rcases hl : alookup st.storage k with _ | item
    · simp only [applyOp, pyRpush, hl, saveSt_storage]
      refine StOK_dinsert h ?_ rfl
      simp [ValOK, ValsOK, ValOK_val v]
    · cases item with
      | list xs =>
        simp only [applyOp, pyRpush, hl, saveSt_storage]
        have hok := (StOK_lookup h hl).1
        simp only [ValOK] at hok
        refine StOK_dinsert h ?_ rfl
        simpa [ValOK] using ValsOK_append_one hok (ValOK_val v)
      | str s => simp only [applyOp, pyRpush, hl]; exact h
      | int n => simp only [applyOp, pyRpush, hl]; exact h
      | tup a b => simp only [applyOp, pyRpush, hl]; exact h
      | set xs => simp only [applyOp, pyRpush, hl]; exact h
      | dict fs => simp only [applyOp, pyRpush, hl]; exact h
  | lpop k =>
    rcases hl : alookup st.storage k with _ | item
    · simp only [applyOp, pyLpop, hl]; exact h
    · cases item with
      | list xs =>
        cases xs with
        | nil => simp only [applyOp, pyLpop, hl]; exact h
        | cons x rest =>
          simp only [applyOp, pyLpop, hl, saveSt_storage]
          have hok := (StOK_lookup h hl).1
          simp only [ValOK] at hok
          refine StOK_dinsert h ?_ rfl
          simpa [ValOK] using (ValsOK_head hok).2
      | str s => simp only [applyOp, pyLpop, hl]; exact h
      | int n => simp only [applyOp, pyLpop, hl]; exact h
      | tup a b => simp only [applyOp, pyLpop, hl]; exact h
      | set xs => simp only [applyOp, pyLpop, hl]; exact h
      | dict fs => simp only [applyOp, pyLpop, hl]; exact h
  | rpop k =>
    rcases hl : alookup st.storage k with _ | item
    · simp only [applyOp, pyRpop, hl]; exact h
    · cases item with
      | list xs =>
        cases xs with
        | nil => simp only [applyOp, pyRpop, hl]; exact h
        | cons x rest =>
          simp only [applyOp, pyRpop, hl, saveSt_storage]
          have hok := (StOK_lookup h hl).1
          simp only [ValOK] at hok
          refine StOK_dinsert h ?_ rfl
          simpa [ValOK] using ValsOK_dropLast hok
      | str s => simp only [applyOp, pyRpop, hl]; exact h
      | int n => simp only [applyOp, pyRpop, hl]; exact h
      | tup a b => simp only [applyOp, pyRpop, hl]; exact h
      | set xs => simp only [applyOp, pyRpop, hl]; exact h
      | dict fs => simp only [applyOp, pyRpop, hl]; exact h
  | expire now k ttl =>
    rcases hl : alookup st.storage k with _ | item
    · simp only [applyOp, pyExpire, hl]; exact h
    · have hok := (StOK_lookup h hl).1
      cases item with
      | dict fs =>
        by_cases he : (alookup fs "expires_at").isSome = true
        · simp only [applyOp, pyExpire, hl, he, if_true, saveSt_storage]
          exact StOK_dinsert h
            (ValOK_dict_dinsert hok (by simp [ValOK])) rfl
        · simp only [applyOp, pyExpire, hl, (Bool.not_eq_true _).mp he]
          rw [if_neg Bool.false_ne_true]
          simp only [saveSt_storage]
          exact StOK_dinsert h (ValOK_wrapper hok _) rfl
      | str s =>
        simp only [applyOp, pyExpire, hl, saveSt_storage]
        exact StOK_dinsert h (ValOK_wrapper hok _) rfl
      | int n =>
        simp only [applyOp, pyExpire, hl, saveSt_storage]
        exact StOK_dinsert h (ValOK_wrapper hok _) rfl
      | list xs =>
        simp only [applyOp, pyExpire, hl, saveSt_storage]
        exact StOK_dinsert h (ValOK_wrapper hok _) rfl
      | tup a b =>
        simp only [applyOp, pyExpire, hl, saveSt_storage]
        exact StOK_dinsert h (ValOK_wrapper hok _) rfl
      | set xs =>
        simp only [applyOp, pyExpire, hl, saveSt_storage]
        exact StOK_dinsert h (ValOK_wrapper hok _) rfl
  | incrby k d => exact stok_incrby st k d h
  | decrby k d => exact stok_incrby st k (-d) h
  | rename o n =>
    rcases hl : alookup st.storage o with _ | item
    · simp only [applyOp, pyRename, hl]; exact h
    · simp only [applyOp, pyRename, hl, saveSt_storage]
      have hok := StOK_lookup h hl
      exact StOK_dinsert (StOK_eraseK h) hok.1 hok.2
  | append k v =>
    rcases hl : alookup st.storage k with _ | item
    · simp only [applyOp, pyAppend, hl, saveSt_storage]
      exact StOK_dinsert h (by simp [ValOK]) rfl
    · cases item with
      | str s =>
        simp only [applyOp, pyAppend, hl, saveSt_storage]
        exact StOK_dinsert h (by simp [ValOK]) rfl
      | int n => simp only [applyOp, pyAppend, hl]; exact h
      | list xs => simp only [applyOp, pyAppend, hl]; exact h
      | tup a b => simp only [applyOp, pyAppend, hl]; exact h
      | set xs => simp only [applyOp, pyAppend, hl]; exact h
      | dict fs => simp only [applyOp, pyAppend, hl]; exact h
  | zadd k sc m => exact stok_zadd st k sc m h

theorem reachable_StOK {s : St} (h : Reachable s) : StOK s.storage = true := by
  induction h with
  | init => rfl
  | step o hr ih => exact stok_preserved o _ ih

/-- The reinterpretation a snapshot round trip applies to a stored value:
a plain list of primitive scalars comes back as a set, everything else
(that serializes at all and contains no tuple) comes back unchanged. -/
def setify (v : Val) : Val :=
  match v with
  | .list xs => if xs.all scOK then .set (pdedup xs) else .list xs
  | v => v

/-- Did serialization succeed? -/
def excOk {α : Type} : Except PyErr α → Bool
  | .ok _ => true
  | .error _ => false

/-- All top-level values of the mapping serialize (no set nested inside a
TTL wrapper anywhere). -/
def encOKSt (σ : List (String × Val)) : Bool :=
  σ.all (fun kv => excOk (encTop kv.2))

/-- No scored list anywhere in the mapping. -/
def NoTupSt (σ : List (String × Val)) : Bool :=
  σ.all (fun kv => NoTupV kv.2)

mutual

theorem decVal_encVal : (v : Val) → (j : Json) → ValOK v = true →
    NoTupV v = true → encVal v = Except.ok j → decVal j = v
  | .str s, j, _, _, h => by
      simp only [encVal] at h
      cases h
      simp [decVal]
  | .int n, j, _, _, h => by
      simp only [encVal] at h
      cases h
      simp [decVal]
  | .tup a b, j, _, hnt, h => by simp [NoTupV] at hnt
  | .set xs, j, _, _, h => by simp [encVal] at h
  | .list xs, j, hok, hnt, h => by
      simp only [encVal] at h
      rcases he : encListV xs with e | ys
      · rw [he] at h; cases h
      · rw [he] at h
        cases h
        simp only [decVal]
        rw [decListJ_encListV xs ys (by simpa [ValOK] using hok)
          (by simpa [NoTupV] using hnt) he]
  | .dict fs, j, hok, hnt, h => by
      simp only [encVal] at h
      rcases he : encFieldsV fs with e | gs
      · rw [he] at h; cases h
      · rw [he] at h
        cases h
        simp only [decVal]
        rw [decFieldsJ_encFieldsV fs gs
          (by simp only [ValOK, Bool.and_eq_true] at hok; exact hok.2)
          (by simpa [NoTupV] using hnt) he]

theorem decListJ_encListV : (xs : List Val) → (js : List Json) →
    ValsOK xs = true → NoTupL xs = true → encListV xs = Except.ok js →
    decListJ js = xs
  | [], js, _, _, h => by
      simp only [encListV] at h
      cases h
      simp [decListJ]
  | v :: vs, js, hok, hnt, h => by
      simp only [encListV] at h
      rcases h1 : encVal v with e | x
      · rw [h1] at h; cases h
      · rcases h2 : encListV vs with e | ys
        · rw [h1, h2] at h; cases h
        · rw [h1, h2] at h
          cases h
          have hok2 : ValOK v = true ∧ ValsOK vs = true := by
            simpa [ValsOK] using hok
          have hnt2 : NoTupV v = true ∧ NoTupL vs = true := by
            simpa [NoTupL] using hnt
          simp only [decListJ]
          rw [decVal_encVal v x hok2.1 hnt2.1 h1,
            decListJ_encListV vs ys hok2.2 hnt2.2 h2]

theorem decFieldsJ_encFieldsV : (fs : List (String × Val)) →
    (gs : List (String × Json)) → FieldsOK fs = true → NoTupF fs = true →
    encFieldsV fs = Except.ok gs → decFieldsJ gs = fs
  | [], gs, _, _, h => by
      simp only [encFieldsV] at h
      cases h
      simp [decFieldsJ]
  | (k, v) :: fs, gs, hok, hnt, h => by
      simp only [encFieldsV] at h
      rcases h1 : encVal v with e | x
      · rw [h1] at h; cases h
      · rcases h2 : encFieldsV fs with e | ys
        · rw [h1, h2] at h; cases h
        · rw [h1, h2] at h
          cases h
          have hok2 : ValOK v = true ∧ FieldsOK fs = true := by
            simpa [FieldsOK] using hok
          have hnt2 : NoTupV v = true ∧ NoTupF fs = true := by
            simpa [NoTupF] using hnt
          simp only [decFieldsJ]
          rw [decVal_encVal v x hok2.1 hnt2.1 h1,
            decFieldsJ_encFieldsV fs ys hok2.2 hnt2.2 h2]

end

mutual

theorem encVal_error : (v : Val) → (e : PyErr) →
    encVal v = Except.error e → e = PyErr.typeError
  | .str s, e, h => by simp [encVal] at h
  | .int n, e, h => by simp [encVal] at h
  | .tup a b, e, h => by
      simp only [encVal] at h
      rcases h1 : encVal a with e1 | x
      · rw [h1] at h; cases h; exact encVal_error a e h1
      · rcases h2 : encVal b with e2 | y
        · rw [h1, h2] at h; cases h; exact encVal_error b e h2
        · rw [h1, h2] at h; cases h
  | .set xs, e, h => by
      simp only [encVal] at h
      cases h
      rfl
  | .list xs, e, h => by
      simp only [encVal] at h
      rcases h1 : encListV xs with e1 | ys
      · rw [h1] at h; cases h; exact encListV_error xs e h1
      · rw [h1] at h; cases h
  | .dict fs, e, h => by
      simp only [encVal] at h
      rcases h1 : encFieldsV fs with e1 | gs
      · rw [h1] at h; cases h; exact encFieldsV_error fs e h1
      · rw [h1] at h; cases h

theorem encListV_error : (xs : List Val) → (e : PyErr) →
    encListV xs = Except.error e → e = PyErr.typeError
  | [], e, h => by simp [encListV] at h
  | v :: vs, e, h => by
      simp only [encListV] at h
      rcases h1 : encVal v with e1 | x
      · rw [h1] at h; cases h; exact encVal_error v e h1
      · rcases h2 : encListV vs with e2 | ys
        · rw [h1, h2] at h; cases h; exact encListV_error vs e h2
        · rw [h1, h2] at h; cases h

theorem encFieldsV_error : (fs : List (String × Val)) → (e : PyErr) →
    encFieldsV fs = Except.error e → e = PyErr.typeError
  | [], e, h => by simp [encFieldsV] at h
  | (k, v) :: fs, e, h => by
      simp only [encFieldsV] at h
      rcases h1 : encVal v with e1 | x
      · rw [h1] at h; cases h; exact encVal_error v e h1
      · rcases h2 : encFieldsV fs with e2 | gs
        · rw [h1, h2] at h; cases h; exact encFieldsV_error fs e h2
        · rw [h1, h2] at h; cases h

end

theorem encTop_error {v : Val} {e : PyErr}
    (h : encTop v = Except.error e) : e = PyErr.typeError := by
  cases v with
  | set xs =>
    simp only [encTop] at h
    rcases h1 : encListV xs with e1 | ys
    · rw [h1] at h; cases h; exact encListV_error xs e h1
    · rw [h1] at h; cases h
  | str s => exact encVal_error _ _ h
  | int n => exact encVal_error _ _ h
  | list xs => exact encVal_error _ _ h
  | tup a b => exact encVal_error _ _ h
  | dict fs => exact encVal_error _ _ h

theorem encStAux_error : (σ : List (String × Val)) → (e : PyErr) →
    encStAux σ = Except.error e → e = PyErr.typeError
  | [], e, h => by simp [encStAux] at h
  | (k, v) :: rest, e, h => by
      simp only [encStAux] at h
      rcases h1 : encTop v with e1 | x
      · rw [h1] at h; cases h; exact encTop_error h1
      · rcases h2 : encStAux rest with e2 | fs
        · rw [h1, h2] at h; cases h; exact encStAux_error rest e h2
        · rw [h1, h2] at h; cases h

theorem any_pdedup {xs : List Val} {p : Val → Bool}
    (h : (pdedup xs).any p = true) : xs.any p = true := by
  induction xs with
  | nil => exact h
  | cons v vs ih =>
    simp only [pdedup, List.any_cons] at h ⊢
    rcases Bool.or_eq_true_iff.mp h with h1 | h2
    · exact Bool.or_eq_true_iff.mpr (.inl h1)
    · have h3 : ((pdedup vs).any p) = true := by
        rcases List.any_eq_true.mp h2 with ⟨w, hw, hpw⟩
        exact List.any_eq_true.mpr ⟨w, List.mem_of_mem_filter hw, hpw⟩
      exact Bool.or_eq_true_iff.mpr (.inr (ih h3))

theorem pdedup_nodup {xs : List Val} (h : pNodup xs = true) :
    pdedup xs = xs := by
  induction xs with
  | nil => rfl
  | cons v vs ih =>
    simp only [pNodup, Bool.and_eq_true, Bool.not_eq_true'] at h
    have hfil : vs.filter (fun w => !(Val.beq v w)) = vs := by
      apply List.filter_eq_self.mpr
      intro w hw
      have hfw : Val.beq v w = false := by
        by_contra hc
        simp only [Bool.not_eq_false] at hc
        have h3 : vs.any (fun w => Val.beq v w) = true :=
          List.any_eq_true.mpr ⟨w, hw, hc⟩
        rw [h.1] at h3
        exact Bool.false_ne_true h3
      simp [hfw]
    simp only [pdedup, ih h.2, hfil]

theorem ValsOK_of_prim {xs : List Val} (h : xs.all scOK = true) :
    ValsOK xs = true := by
  induction xs with
  | nil => rfl
  | cons v vs ih =>
    simp only [List.all_cons, Bool.and_eq_true] at h
    refine ValsOK_cons ?_ (ih h.2)
    cases v <;> simp_all [scOK, ValOK]

theorem NoTupL_of_prim {xs : List Val} (h : xs.all scOK = true) :
    NoTupL xs = true := by
  induction xs with
  | nil => rfl
  | cons v vs ih =>
    simp only [List.all_cons, Bool.and_eq_true] at h
    simp only [NoTupL, Bool.and_eq_true]
    refine ⟨?_, ih h.2⟩
    cases v <;> simp_all [scOK, NoTupV]

theorem encListV_ok_of_prim {xs : List Val} (h : xs.all scOK = true) :
    excOk (encListV xs) = true := by
  induction xs with
  | nil => rfl
  | cons v vs ih =>
    simp only [List.all_cons, Bool.and_eq_true] at h
    have := ih h.2
    rcases h2 : encListV vs with e | ys
    · rw [h2] at this; simp [excOk] at this
    · cases v with
      | str s => simp [encListV, encVal, h2, excOk]
      | int n => simp [encListV, encVal, h2, excOk]
      | list a => simp [scOK] at h
      | tup a b => simp [scOK] at h
      | set a => simp [scOK] at h
      | dict a => simp [scOK] at h

theorem all_scOK_pdedup {xs : List Val} (h : xs.all scOK = true) :
    (pdedup xs).all scOK = true := by
  induction xs with
  | nil => rfl
  | cons v vs ih =>
    simp only [List.all_cons, Bool.and_eq_true] at h
    simp only [pdedup, List.all_cons, Bool.and_eq_true]
    refine ⟨h.1, ?_⟩
    have := ih h.2
    exact List.all_eq_true.mpr fun w hw =>
      List.all_eq_true.mp this w (List.mem_of_mem_filter hw)

theorem loadTop_encTop {v : Val} {j : Json} (hok : ValOK v = true)
    (hnt : NoTupV v = true) (hj : encTop v = Except.ok j) :
    loadTop j = setify v := by
  cases v with
  | str s =>
    simp only [encTop, encVal] at hj
    cases hj
    simp [loadTop, decVal, setify]
  | int n =>
    simp only [encTop, encVal] at hj
    cases hj
    simp [loadTop, decVal, setify]
  | tup a b => simp [NoTupV] at hnt
  | list xs =>
    simp only [encTop, encVal] at hj
    rcases he : encListV xs with e | ys
    · rw [he] at hj; cases hj
    · rw [he] at hj
      cases hj
      simp only [loadTop, decVal]
      rw [decListJ_encListV xs ys (by simpa [ValOK] using hok)
        (by simpa [NoTupV] using hnt) he]
      simp [setify]
  | set xs =>
    simp only [encTop] at hj
    rcases he : encListV xs with e | ys
    · rw [he] at hj; cases hj
    · rw [he] at hj
      cases hj
      simp only [ValOK, Bool.and_eq_true] at hok
      simp only [loadTop, decVal]
      rw [decListJ_encListV xs ys (ValsOK_of_prim hok.1)
        (by simpa [NoTupV] using hnt) he]
      simp only [hok.1, if_true, setify]
      rw [pdedup_nodup hok.2]
  | dict fs =>
    simp only [encTop, encVal] at hj
    rcases he : encFieldsV fs with e | gs
    · rw [he] at hj; cases hj
    · rw [he] at hj
      cases hj
      simp only [loadTop, decVal]
      rw [decFieldsJ_encFieldsV fs gs
        (by simp only [ValOK, Bool.and_eq_true] at hok; exact hok.2)
        (by simpa [NoTupV] using hnt) he]
      simp [setify]

theorem loadStorage_encSt : (σ : List (String × Val)) → (j : Json) →
    σ.all (fun kv => ValOK kv.2) = true → NoTupSt σ = true →
    encSt σ = Except.ok j →
    loadStorage j = σ.map (fun kv => (kv.1, setify kv.2))
  | [], j, _, _, h => by
      simp only [encSt, encStAux] at h
      cases h
      simp [loadStorage]
  | (k, v) :: rest, j, hok, hnt, h => by
      simp only [encSt, encStAux] at h
      rcases h1 : encTop v with e | x
      · rw [h1] at h; cases h
      · rcases h2 : encStAux rest with e | fs
        · rw [h1, h2] at h; cases h
        · rw [h1, h2] at h
          cases h
          simp only [List.all_cons, Bool.and_eq_true] at hok
          simp only [NoTupSt, List.all_cons, Bool.and_eq_true] at hnt
          have hrest := loadStorage_encSt rest (.obj fs) hok.2
            (by simpa [NoTupSt] using hnt.2) (by simp [encSt, h2])
          simp only [loadStorage, List.map_cons] at hrest ⊢
          rw [loadTop_encTop hok.1 hnt.1 h1, hrest]

theorem alookup_map_setify : (σ : List (String × Val)) → (k : String) →
    alookup (σ.map (fun kv => (kv.1, setify kv.2))) k =
      (alookup σ k).map setify
  | [], k => by simp [alookup]
  | (k', v) :: rest, k => by
      by_cases hk : k' = k
      · subst hk
        simp [alookup]
      · simp only [List.map_cons, alookup, if_neg hk]
        exact alookup_map_setify rest k

theorem setify_of_not_primList {v : Val}
    (h : isPrimListO (some v) = false) : setify v = v := by
  cases v with
  | list xs =>
    simp only [isPrimListO] at h
    simp [setify, h]
  | str s => rfl
  | int n => rfl
  | tup a b => rfl
  | set xs => rfl
  | dict fs => rfl

theorem encOKSt_of_encSt {σ : List (String × Val)} {j : Json}
    (h : encSt σ = Except.ok j) : encOKSt σ = true := by
  induction σ generalizing j with
  | nil => rfl
  | cons kv rest ih =>
    obtain ⟨k, v⟩ := kv
    simp only [encSt, encStAux] at h
    rcases h1 : encTop v with e | x
    · rw [h1] at h; cases h
    · rcases h2 : encStAux rest with e | fs
      · rw [h1, h2] at h; cases h
      · simp only [encOKSt, List.all_cons, Bool.and_eq_true]
        refine ⟨by simp [h1, excOk], ?_⟩
        have := ih (j := .obj fs) (by simp [encSt, h2])
        simpa [encOKSt] using this

theorem encSt_of_encOKSt {σ : List (String × Val)}
    (h : encOKSt σ = true) : ∃ j, encSt σ = Except.ok j := by
  induction σ with
  | nil => exact ⟨.obj [], rfl⟩
  | cons kv rest ih =>
    obtain ⟨k, v⟩ := kv
    simp only [encOKSt, List.all_cons, Bool.and_eq_true] at h
    rcases h1 : encTop v with e | x
    · rw [h1] at h; simp [excOk] at h
    · obtain ⟨j2, hj2⟩ := ih (by simpa [encOKSt] using h.2)
      simp only [encSt] at hj2
      rcases h2 : encStAux rest with e | fs
      · rw [h2] at hj2; cases hj2
      · rw [h2] at hj2
        cases hj2
        exact ⟨.obj ((k, x) :: fs), by simp [encSt, encStAux, h1, h2]⟩

theorem saveSt_snd (x : St) : (saveSt x).2 =
    (if encOKSt x.storage = true then Except.ok ()
     else Except.error PyErr.typeError) := by
  rcases hs : encSt x.storage with e | j
  · simp only [saveSt, hs]
    rw [if_neg]
    · have := encStAux_error x.storage e (by
        simp only [encSt] at hs
        rcases h2 : encStAux x.storage with e2 | fs
        · rw [h2] at hs; cases hs; rfl
        · rw [h2] at hs; cases hs)
      rw [this]
    · intro hc
      obtain ⟨j, hj⟩ := encSt_of_encOKSt hc
      rw [hs] at hj
      cases hj
  · simp only [saveSt, hs]
    rw [if_pos (encOKSt_of_encSt hs)]

theorem encOKSt_eraseK {σ : List (String × Val)} {k : String}
    (h : encOKSt σ = true) : encOKSt (eraseK σ k) = true :=
  all_eraseK h

theorem encTop_setify {v : Val} (hok : ValOK v = true)
    (hv : excOk (encTop v) = true) : excOk (encTop (setify v)) = true := by
  cases v with
  | list xs =>
    by_cases hp : xs.all scOK = true
    · simp only [setify, hp, if_true, encTop]
      have := encListV_ok_of_prim (all_scOK_pdedup hp)
      rcases h2 : encListV (pdedup xs) with e | ys
      · rw [h2] at this; simp [excOk] at this
      · simp [h2, excOk]
    · simp only [setify, (Bool.not_eq_true _).mp hp]
      rw [if_neg Bool.false_ne_true]
      exact hv
  | str s => exact hv
  | int n => exact hv
  | tup a b => exact hv
  | set xs => exact hv
  | dict fs => exact hv

theorem reload_lookup {σ : List (String × Val)} {j : Json}
    (hok : σ.all (fun kv => ValOK kv.2) = true) (hnt : NoTupSt σ = true)
    (hj : encSt σ = Except.ok j) (k : String) :
    alookup (loadStorage j) k = (alookup σ k).map setify := by
  rw [loadStorage_encSt σ j hok hnt hj, alookup_map_setify]

theorem encOKSt_loadStorage {σ : List (String × Val)} {j : Json}
    (hok : σ.all (fun kv => ValOK kv.2) = true) (hnt : NoTupSt σ = true)
    (hj : encSt σ = Except.ok j) : encOKSt (loadStorage j) = true := by
  have hall := encOKSt_of_encSt hj
  rw [loadStorage_encSt σ j hok hnt hj]
  simp only [encOKSt, List.all_map]
  apply List.all_eq_true.mpr
  intro kv hkv
  have h1 := List.all_eq_true.mp hall kv hkv
  have h2 := List.all_eq_true.mp hok kv hkv
  simpa using encTop_setify h2 h1

theorem pyGet_snd_congr {σ1 σ2 : List (String × Val)} {d1 d2 : Option Json}
    (k : String) (now : Int) (hl : alookup σ1 k = alookup σ2 k)
    (he : encOKSt (eraseK σ1 k) = encOKSt (eraseK σ2 k)) :
    (pyGet ⟨σ1, d1⟩ now k).2 = (pyGet ⟨σ2, d2⟩ now k).2 := by
  rcases h2 : alookup σ2 k with _ | item
  · rw [h2] at hl
    simp only [pyGet, hl, h2]
  · rw [h2] at hl
    cases item with
    | dict fs =>
      rcases hea : alookup fs "expires_at" with _ | ea
      · simp only [pyGet, hl, h2, hea]
      · rcases hgt : pyGtE now ea with e | b
        · simp only [pyGet, hl, h2, hea, hgt]
        · cases b with
          | false =>
            simp only [pyGet, hl, h2, hea, hgt]
            rcases alookup fs "value" with _ | v <;> rfl
          | true =>
            simp only [pyGet, hl, h2, hea, hgt, saveSt_snd]
            rw [he]
    | str s => simp only [pyGet, hl, h2]
    | int n => simp only [pyGet, hl, h2]
    | list xs => simp only [pyGet, hl, h2]
    | tup a b => simp only [pyGet, hl, h2]
    | set xs => simp only [pyGet, hl, h2]

theorem pySmembers_snd_congr {σ1 σ2 : List (String × Val)}
    {d1 d2 : Option Json} (k : String)
    (hl : alookup σ1 k = alookup σ2 k) :
    (pySmembers ⟨σ1, d1⟩ k).2 = (pySmembers ⟨σ2, d2⟩ k).2 := by
  rcases h2 : alookup σ2 k with _ | c <;> rw [h2] at hl <;>
    simp only [pySmembers, hl, h2]

theorem pyHget_snd_congr {σ1 σ2 : List (String × Val)}
    {d1 d2 : Option Json} (k f : String)
    (hl : alookup σ1 k = alookup σ2 k) :
    (pyHget ⟨σ1, d1⟩ k f).2 = (pyHget ⟨σ2, d2⟩ k f).2 := by
  rcases h2 : alookup σ2 k with _ | c
  · rw [h2] at hl
    simp only [pyHget, hl, h2]
  · rw [h2] at hl
    rcases hc : pyContainsStr c f with e | b
    · simp only [pyHget, hl, h2, hc]
    · cases b with
      | false => simp only [pyHget, hl, h2, hc]
      | true =>
        simp only [pyHget, hl, h2, hc]
        rcases pyGetItem c f with e | v <;> rfl

theorem pyLrange_snd_congr {σ1 σ2 : List (String × Val)}
    {d1 d2 : Option Json} (k : String) (a b : Int)
    (hl : alookup σ1 k = alookup σ2 k) :
    (pyLrange ⟨σ1, d1⟩ k a b).2 = (pyLrange ⟨σ2, d2⟩ k a b).2 := by
  rcases h2 : alookup σ2 k with _ | c
  · rw [h2] at hl
    simp only [pyLrange, hl, h2]
  · rw [h2] at hl
    cases c <;> simp only [pyLrange, hl, h2]

theorem pyZrange_snd_congr {σ1 σ2 : List (String × Val)}
    {d1 d2 : Option Json} (k : String) (a b : Int)
    (hl : alookup σ1 k = alookup σ2 k) :
    (pyZrange ⟨σ1, d1⟩ k a b).2 = (pyZrange ⟨σ2, d2⟩ k a b).2 := by
  rcases h2 : alookup σ2 k with _ | c
  · rw [h2] at hl
    simp only [pyZrange, hl, h2]
  · rw [h2] at hl
    cases c <;> simp only [pyZrange, hl, h2]

theorem StOK_vals {σ : List (String × Val)} (h : StOK σ = true) :
    σ.all (fun kv => ValOK kv.2) = true := by
  simp only [StOK, Bool.and_eq_true] at h
  apply List.all_eq_true.mpr
  intro kv hkv
  have := List.all_eq_true.mp h.2 kv hkv
  simp only [Bool.and_eq_true] at this
  simpa using this.1

theorem touch_present {σ : List (String × Val)} {k : String} {c : Val}
    (hl : alookup σ k = some c) (dflt : Val) : touch σ k dflt = σ := by
  unfold touch
  rw [hl]
  rfl

theorem alookup_eraseK_self {σ : List (String × Val)} {k : String}
    (hnd : kNodup (σ.map Prod.fst) = true) :
    alookup (eraseK σ k) k = none := by
  induction σ with
  | nil => rfl
  | cons kv rest ih =>
    obtain ⟨k', v'⟩ := kv
    simp only [List.map_cons, kNodup, Bool.and_eq_true, Bool.not_eq_true']
      at hnd
    by_cases hk : k' = k
    · subst hk
      simp only [eraseK, if_pos rfl, if_true]
      rcases hl : alookup rest k' with _ | w
      · rfl
      · exfalso
        have hmem : (rest.map Prod.fst).any (fun l => k' == l) = true := by
          clear hnd ih
          induction rest with
          | nil => simp [alookup] at hl
          | cons kw t ih2 =>
            obtain ⟨l', w'⟩ := kw
            by_cases h2 : l' = k'
            · subst h2; simp
            · simp only [alookup, if_neg h2] at hl
              simp only [List.map_cons, List.any_cons]
              exact Bool.or_eq_true_iff.mpr (.inr (ih2 hl))
        rw [hnd.1] at hmem
        exact Bool.false_ne_true hmem
    · simp only [eraseK, if_neg hk, alookup, if_neg hk]
      exact ih hnd.2

theorem get_wrapper_expired {st : St} {k : String}
    {fs : List (String × Val)} {t now : Int} {j : Json}
    (hl : alookup st.storage k = some (.dict fs))
    (he : alookup fs "expires_at" = some (.int t)) (hgt : now > t)
    (hj : encSt (eraseK st.storage k) = Except.ok j) :
    pyGet st now k = (⟨eraseK st.storage k, some j⟩, .ok none) := by
  simp only [pyGet, hl, he, pyGtE, decide_eq_true hgt, saveSt, hj]
  rfl

theorem get_wrapper_live {st : St} {k : String}
    {fs : List (String × Val)} {t now : Int} {v : Val}
    (hl : alookup st.storage k = some (.dict fs))
    (he : alookup fs "expires_at" = some (.int t)) (hle : ¬(now > t))
    (hv : alookup fs "value" = some v) :
    pyGet st now k = (st, .ok (some v)) := by
  simp only [pyGet, hl, he, pyGtE, decide_eq_false hle, hv]

theorem get_wrapper_keyerr {st : St} {k : String}
    {fs : List (String × Val)} {t now : Int}
    (hl : alookup st.storage k = some (.dict fs))
    (he : alookup fs "expires_at" = some (.int t)) (hle : ¬(now > t))
    (hv : alookup fs "value" = none) :
    pyGet st now k = (st, .error .keyError) := by
  simp only [pyGet, hl, he, pyGtE, decide_eq_false hle, hv]

theorem hset_wrong_type {st : St} {k : String} {c : Val} (f : String)
    (w : Val) (hl : alookup st.storage k = some c)
    (hc : isDict c = false) :
    pyHset st k f w = (st, .error .typeError) := by
  cases c with
  | dict fs => simp [isDict] at hc
  | str s => simp only [pyHset, hl, pySetItem]
  | int n => simp only [pyHset, hl, pySetItem]
  | list xs => simp only [pyHset, hl, pySetItem]
  | tup a b => simp only [pyHset, hl, pySetItem]
  | set xs => simp only [pyHset, hl, pySetItem]

theorem hincrby_wrong_type {st : St} {k : String} {c : Val} (f : String)
    (d : Int) (hl : alookup st.storage k = some c)
    (hc : isDict c = false) :
    pyHincrby st k f d = (st, .error .typeError) := by
  have ht : touch st.storage k (.dict []) = st.storage :=
    touch_present hl _
  have hself : dinsert st.storage k c = st.storage := dinsert_self hl
  cases c with
  | dict fs => simp [isDict] at hc
  | int n => simp only [pyHincrby, ht, hl, pyContainsStr]
  | str s =>
    by_cases hb : isSub f.data s.data = true
    · simp only [pyHincrby, ht, hl, pyContainsStr, hb, if_pos rfl, if_true,
        pyGetItem, hself]
    · simp only [pyHincrby, ht, hl, pyContainsStr,
        (Bool.not_eq_true _).mp hb]
      rw [if_neg Bool.false_ne_true]
      simp only [pySetItem]
  | list xs =>
    by_cases hb : xs.any (fun x => Val.beq x (.str f)) = true
    · simp only [pyHincrby, ht, hl, pyContainsStr, hb, if_pos rfl, if_true,
        pyGetItem, hself]
    · simp only [pyHincrby, ht, hl, pyContainsStr,
        (Bool.not_eq_true _).mp hb]
      rw [if_neg Bool.false_ne_true]
      simp only [pySetItem]
  | set xs =>
    by_cases hb : xs.any (fun x => Val.beq x (.str f)) = true
    · simp only [pyHincrby, ht, hl, pyContainsStr, hb, if_pos rfl, if_true,
        pyGetItem, hself]
    · simp only [pyHincrby, ht, hl, pyContainsStr,
        (Bool.not_eq_true _).mp hb]
      rw [if_neg Bool.false_ne_true]
      simp only [pySetItem]
  | tup a b =>
    by_cases hb : (Val.beq a (.str f) || Val.beq b (.str f)) = true
    · simp only [pyHincrby, ht, hl, pyContainsStr, hb, if_pos rfl, if_true,
        pyGetItem, hself]
    · simp only [pyHincrby, ht, hl, pyContainsStr,
        (Bool.not_eq_true _).mp hb]
      rw [if_neg Bool.false_ne_true]
      simp only [pySetItem]

theorem sadd_wrong_type {st : St} {k : String} {c : Val} (w : Val)
    (hl : alookup st.storage k = some c) (hc : isSet c = false) :
    pySadd st k w = (st, .error .typeError) := by
  cases c with
  | set xs => simp [isSet] at hc
  | str s => simp only [pySadd, hl]
  | int n => simp only [pySadd, hl]
  | list xs => simp only [pySadd, hl]
  | tup a b => simp only [pySadd, hl]
  | dict fs => simp only [pySadd, hl]

theorem lpush_wrong_type {st : St} {k : String} {c : Val} (w : Val)
    (hl : alookup st.storage k = some c) (hc : isList c = false) :
    pyLpush st k w = (st, .error .typeError) := by
  cases c with
  | list xs => simp [isList] at hc
  | str s => simp only [pyLpush, hl]
  | int n => simp only [pyLpush, hl]
  | set xs => simp only [pyLpush, hl]
  | tup a b => simp only [pyLpush, hl]
  | dict fs => simp only [pyLpush, hl]

theorem rpush_wrong_type {st : St} {k : String} {c : Val} (w : Val)
    (hl : alookup st.storage k = some c) (hc : isList c = false) :
    pyRpush st k w = (st, .error .typeError) := by
  cases c with
  | list xs => simp [isList] at hc
  | str s => simp only [pyRpush, hl]
  | int n => simp only [pyRpush, hl]
  | set xs => simp only [pyRpush, hl]
  | tup a b => simp only [pyRpush, hl]
  | dict fs => simp only [pyRpush, hl]

theorem incrby_wrong_type {st : St} {k : String} {c : Val} (d : Int)
    (hl : alookup st.storage k = some c) (hc : isInt c = false) :
    pyIncrby st k d = (st, .error .typeError) := by
  have ht : touch st.storage k (.int 0) = st.storage := touch_present hl _
  cases c with
  | int n => simp [isInt] at hc
  | str s => simp only [pyIncrby, ht, hl]
  | list xs => simp only [pyIncrby, ht, hl]
  | set xs => simp only [pyIncrby, ht, hl]
  | tup a b => simp only [pyIncrby, ht, hl]
  | dict fs => simp only [pyIncrby, ht, hl]

theorem append_wrong_type {st : St} {k : String} {c : Val} (s2 : String)
    (hl : alookup st.storage k = some c) (hc : isStr c = false) :
    pyAppend st k s2 = (st, .error .typeError) := by
  cases c with
  | str s => simp [isStr] at hc
  | int n => simp only [pyAppend, hl]
  | list xs => simp only [pyAppend, hl]
  | set xs => simp only [pyAppend, hl]
  | tup a b => simp only [pyAppend, hl]
  | dict fs => simp only [pyAppend, hl]

theorem rename_absent {st : St} {o : String} (n : String)
    (hl : alookup st.storage o = none) :
    pyRename st o n = (st, .error .keyError) := by
  simp only [pyRename, hl]

theorem zadd_on_single_list {st : St} {k : String} {x : Val}
    (sc : Int) (m : String)
    (hl : alookup st.storage k = some (.list [x])) (hx : scOK x = true) :
    pyZadd st k (.int sc) (.str m) =
      (⟨dinsert st.storage k (.list [x, .tup (.int sc) (.str m)]),
        st.disk⟩, .error .typeError) := by
  have ht : touch st.storage k (.list []) = st.storage := touch_present hl _
  have hsort : sortZ ([x] ++ [.tup (.int sc) (.str m)]) =
      .error .typeError := by
    cases x with
    | str s => rfl
    | int n => rfl
    | list xs => simp [scOK] at hx
    | tup a b => simp [scOK] at hx
    | set xs => simp [scOK] at hx
    | dict fs => simp [scOK] at hx
  simp only [pyZadd, ht, hl, hsort]
  rfl

/-- C1 (counterexample): the round-trip claim fails beyond its documented
exception.  On the reachable state built by `zadd('k', 1, 'x')` the key
holds `[(1, 'x')]`, which is not a plain list of primitive scalars, yet
after saving and reloading `get` (and `range`) observe a different value:
the tuple comes back as a two-element list. -/
theorem C1_counterexample :
    Reachable stZ1 ∧
    isPrimListO (alookup stZ1.storage "k") = false ∧
    encSt stZ1.storage = Except.ok jZ ∧
    (pyGet (stLoad jZ) 0 "k").2 = .ok (some (.list [.list [.int 1, .str "x"]])) ∧
    (pyGet stZ1 0 "k").2 = .ok (some (.list [.tup (.int 1) (.str "x")])) ∧
    (pyGet (stLoad jZ) 0 "k").2 ≠ (pyGet stZ1 0 "k").2 ∧
    (pyLrange (stLoad jZ) "k" 0 1).2 ≠ (pyLrange stZ1 "k" 0 1).2 := by
  refine ⟨Reachable.step _ Reachable.init, rfl, rfl, rfl, rfl, ?_, ?_⟩
  · rw [show (pyGet (stLoad jZ) 0 "k").2 =
      Except.ok (some (.list [.list [.int 1, .str "x"]])) from rfl]
    rw [show (pyGet stZ1 0 "k").2 =
      Except.ok (some (.list [.tup (.int 1) (.str "x")])) from rfl]
    simp
  · rw [show (pyLrange (stLoad jZ) "k" 0 1).2 =
      [.list [.int 1, .str "x"]] from rfl]
    rw [show (pyLrange stZ1 "k" 0 1).2 =
      [.tup (.int 1) (.str "x")] from rfl]
    simp

/-- C1 (amended): for every reachable store state that contains no scored
list (no tuples) and whose snapshot serialization succeeds, saving and
reloading into a fresh engine yields identical observable behavior via
`get`, `members`, `hashGet`, `range` and `scoredRange` on every key that
does not hold a plain list of primitive scalars (the documented
list-to-set ambiguity). -/
theorem C1_roundtrip_amended (S : St) (hR : Reachable S)
    (hnt : NoTupSt S.storage = true) (j : Json)
    (hj : encSt S.storage = Except.ok j) (k : String)
    (hk : isPrimListO (alookup S.storage k) = false)
    (now : Int) (f : String) (a b : Int) :
    alookup (stLoad j).storage k = alookup S.storage k ∧
    (pyGet (stLoad j) now k).2 = (pyGet S now k).2 ∧
    (pySmembers (stLoad j) k).2 = (pySmembers S k).2 ∧
    (pyHget (stLoad j) k f).2 = (pyHget S k f).2 ∧
    (pyLrange (stLoad j) k a b).2 = (pyLrange S k a b).2 ∧
    (pyZrange (stLoad j) k a b).2 = (pyZrange S k a b).2 := by
  have hok := StOK_vals (reachable_StOK hR)
  have hlook : alookup (loadStorage j) k = alookup S.storage k := by
    rw [reload_lookup hok hnt hj k]
    rcases hl : alookup S.storage k with _ | v
    · rfl
    · rw [Option.map_some']
      rw [setify_of_not_primList (by rwa [hl] at hk)]
  refine ⟨hlook, ?_, pySmembers_snd_congr k hlook,
    pyHget_snd_congr k f hlook, pyLrange_snd_congr k a b hlook,
    pyZrange_snd_congr k a b hlook⟩
  apply pyGet_snd_congr k now hlook
  rw [encOKSt_eraseK (encOKSt_loadStorage hok hnt hj),
    encOKSt_eraseK (encOKSt_of_encSt hj)]

/-- C1 (witness): the amended round-trip theorem applied to the concrete
reachable state holding the set `{1}`. -/
theorem C1_witness :
    NoTupSt stSet.storage = true ∧
    encSt stSet.storage = Except.ok jSet ∧
    isPrimListO (alookup stSet.storage "k") = false ∧
    (alookup (stLoad jSet).storage "k" = alookup stSet.storage "k" ∧
     (pyGet (stLoad jSet) 0 "k").2 = (pyGet stSet 0 "k").2 ∧
     (pySmembers (stLoad jSet) "k").2 = (pySmembers stSet "k").2 ∧
     (pyHget (stLoad jSet) "k" "f").2 = (pyHget stSet "k" "f").2 ∧
     (pyLrange (stLoad jSet) "k" 0 (-1)).2 = (pyLrange stSet "k" 0 (-1)).2 ∧
     (pyZrange (stLoad jSet) "k" 0 (-1)).2 = (pyZrange stSet "k" 0 (-1)).2) :=
  ⟨rfl, rfl, rfl,
    C1_roundtrip_amended stSet (Reachable.step _ Reachable.init) rfl jSet rfl
      "k" rfl 0 "f" 0 (-1)⟩

/-- C2: the inclusive-end slicing claim is right about the intent but the
code computes `storage[key][start:end+1]`, and for `end = -1` the slice
`[start:0]` is empty.  After `lpush(k, 'a')`; `rpush(k, 'b')` the key holds
`['a', 'b']`, yet `lrange(k, 0, -1)` returns `[]` instead of the claimed
`['a', 'b']`; `zrange` has the same defect.  (For a non-negative `end` the
inclusive-end reading does hold, as the `0..1` slice shows.) -/
theorem C2_lrange_end_bug :
    Reachable stAB ∧
    alookup stAB.storage "k" = some (.list [.str "a", .str "b"]) ∧
    (pyLrange stAB "k" 0 (-1)).2 = [] ∧
    (pyLrange stAB "k" 0 1).2 = [.str "a", .str "b"] ∧
    Reachable stYX ∧
    (pyZrange stYX "k" 0 (-1)).2 = .ok [] ∧
    (pyZrange stYX "k" 0 1).2 = .ok [.str "y", .str "x"] :=
  ⟨Reachable.step _ (Reachable.step _ Reachable.init), rfl, rfl, rfl,
   Reachable.step _ (Reachable.step _ Reachable.init), rfl, rfl⟩

/-- C3 (counterexample): `zadd` on a key holding the plain list `['a']`
(a different variant than the scored list the operation is defined for)
raises TypeError from the sort but only after `.append` has already
mutated the stored list — the claim that such operations fail rather than
mutate is false. -/
theorem C3_counterexample :
    Reachable stLa ∧
    alookup stLa.storage "k" = some (.list [.str "a"]) ∧
    (pyZadd stLa "k" (.int 1) (.str "x")).2 = .error .typeError ∧
    alookup ((pyZadd stLa "k" (.int 1) (.str "x")).1).storage "k" =
      some (.list [.str "a", .tup (.int 1) (.str "x")]) ∧
    (pyZadd stLa "k" (.int 1) (.str "x")).1.storage ≠ stLa.storage := by
  refine ⟨Reachable.step _ Reachable.init, rfl, rfl, rfl, ?_⟩
  intro h
  have h2 : alookup ((pyZadd stLa "k" (.int 1) (.str "x")).1).storage "k" =
      alookup stLa.storage "k" := by rw [h]
  rw [show alookup ((pyZadd stLa "k" (.int 1) (.str "x")).1).storage "k" =
    some (.list [.str "a", .tup (.int 1) (.str "x")]) from rfl,
    show alookup stLa.storage "k" = some (.list [.str "a"]) from rfl] at h2
  simp at h2

/-- C3 (amended): for every key holding an existing value of a different
variant than the operation is defined for, `hset`, `hincrby`, `sadd`,
`lpush`, `rpush`, `incrby`, `decrby` and `append` fail with TypeError and
leave the state (in-memory mapping and snapshot alike) exactly unchanged;
the exception is `zadd`, which on a key holding a plain (scalar) list
appends the `(score, member)` tuple in memory before the sort raises. -/
theorem C3_type_enforcement (st : St) (k f : String) (w : Sc) (s2 : String)
    (d sc : Int) (m : String) (c x : Val)
    (hl : alookup st.storage k = some c) :
    (isDict c = false → pyHset st k f (Sc.val w) = (st, .error .typeError)) ∧
    (isDict c = false → pyHincrby st k f d = (st, .error .typeError)) ∧
    (isSet c = false → pySadd st k (Sc.val w) = (st, .error .typeError)) ∧
    (isList c = false → pyLpush st k (Sc.val w) = (st, .error .typeError)) ∧
    (isList c = false → pyRpush st k (Sc.val w) = (st, .error .typeError)) ∧
    (isInt c = false → pyIncrby st k d = (st, .error .typeError)) ∧
    (isInt c = false → pyDecrby st k d = (st, .error .typeError)) ∧
    (isStr c = false → pyAppend st k s2 = (st, .error .typeError)) ∧
    (c = .list [x] → scOK x = true →
      pyZadd st k (.int sc) (.str m) =
        (⟨dinsert st.storage k (.list [x, .tup (.int sc) (.str m)]),
          st.disk⟩, .error .typeError)) :=
  ⟨fun hc => hset_wrong_type f _ hl hc,
   fun hc => hincrby_wrong_type f d hl hc,
   fun hc => sadd_wrong_type _ hl hc,
   fun hc => lpush_wrong_type _ hl hc,
   fun hc => rpush_wrong_type _ hl hc,
   fun hc => incrby_wrong_type d hl hc,
   fun hc => incrby_wrong_type (-d) hl hc,
   fun hc => append_wrong_type s2 hl hc,
   fun hx1 hx2 => by subst hx1; exact zadd_on_single_list sc m hl hx2⟩

/-- C3 (witness): the amended enforcement theorem applied to the concrete
reachable state holding the plain list `['a']`. -/
theorem C3_witness :
    alookup stLa.storage "k" = some (.list [.str "a"]) ∧
    ((isDict (.list [.str "a"]) = false →
        pyHset stLa "k" "f" (Sc.val (.s "x")) = (stLa, .error .typeError)) ∧
     (isDict (.list [.str "a"]) = false →
        pyHincrby stLa "k" "f" 5 = (stLa, .error .typeError)) ∧
     (isSet (.list [.str "a"]) = false →
        pySadd stLa "k" (Sc.val (.s "x")) = (stLa, .error .typeError)) ∧
     (isList (.list [.str "a"]) = false →
        pyLpush stLa "k" (Sc.val (.s "x")) = (stLa, .error .typeError)) ∧
     (isList (.list [.str "a"]) = false →
        pyRpush stLa "k" (Sc.val (.s "x")) = (stLa, .error .typeError)) ∧
     (isInt (.list [.str "a"]) = false →
        pyIncrby stLa "k" 5 = (stLa, .error .typeError)) ∧
     (isInt (.list [.str "a"]) = false →
        pyDecrby stLa "k" 5 = (stLa, .error .typeError)) ∧
     (isStr (.list [.str "a"]) = false →
        pyAppend stLa "k" "s" = (stLa, .error .typeError)) ∧
     ((.list [.str "a"] : Val) = .list [.str "a"] → scOK (.str "a") = true →
        pyZadd stLa "k" (.int 7) (.str "m") =
          (⟨dinsert stLa.storage "k"
            (.list [.str "a", .tup (.int 7) (.str "m")]), stLa.disk⟩,
            .error .typeError))) :=
  ⟨rfl, C3_type_enforcement stLa "k" "f" (.s "x") "s" 5 7 "m"
    (.list [.str "a"]) (.str "a") rfl⟩

/-- C4: lazy expiry on `get` — on a TTL wrapper whose timestamp lies
strictly in the past, `get` removes the key, persists the updated snapshot
and returns absent; on a wrapper whose expiry has not yet been reached,
`get` returns the wrapped inner value and leaves the state untouched. -/
theorem C4_lazy_expiry (st : St) (k : String) (fs : List (String × Val))
    (t now : Int) (v : Val) (j : Json)
    (hl : alookup st.storage k = some (.dict fs))
    (he : alookup fs "expires_at" = some (.int t)) :
    (now > t → encSt (eraseK st.storage k) = Except.ok j →
      pyGet st now k = (⟨eraseK st.storage k, some j⟩, .ok none)) ∧
    (now < t → alookup fs "value" = some v →
      pyGet st now k = (st, .ok (some v))) :=
  ⟨fun hgt hj => get_wrapper_expired hl he hgt hj,
   fun hlt hv => get_wrapper_live hl he (by omega) hv⟩

/-- C4 (witness): the lazy-expiry theorem applied to the concrete state
`setex('k', 3, 'v')` at time 2 (expiry 5), read at time 6. -/
theorem C4_witness :
    alookup stTtl.storage "k" =
      some (.dict [("value", .str "v"), ("expires_at", .int 5)]) ∧
    (6 : Int) > 5 ∧
    encSt (eraseK stTtl.storage "k") = Except.ok (.obj []) ∧
    (((6 : Int) > 5 → encSt (eraseK stTtl.storage "k") = Except.ok (.obj []) →
        pyGet stTtl 6 "k" =
          (⟨eraseK stTtl.storage "k", some (.obj [])⟩, .ok none)) ∧
     ((6 : Int) < 5 →
        alookup [("value", .str "v"), ("expires_at", .int 5)] "value" =
          some (.str "v") →
        pyGet stTtl 6 "k" = (stTtl, .ok (some (.str "v"))))) :=
  ⟨rfl, by decide, rfl,
   C4_lazy_expiry stTtl "k" [("value", .str "v"), ("expires_at", .int 5)]
     5 6 (.str "v") (.obj []) rfl rfl⟩

/-- C5: failure atomicity — `incrby`/`decrby` on a non-integer, `append`
on a non-string, `sadd` on a non-set, `lpush`/`rpush` on a non-list all
fail with TypeError, and `rename` of an absent source key fails with
KeyError; in every case the returned state (in-memory mapping and on-disk
snapshot alike) is exactly the pre-call state. -/
theorem C5_failure_atomicity (st : St) (k o n s2 : String) (w : Sc)
    (d : Int) (c : Val) :
    (alookup st.storage k = some c → isInt c = false →
      pyIncrby st k d = (st, .error .typeError)) ∧
    (alookup st.storage k = some c → isInt c = false →
      pyDecrby st k d = (st, .error .typeError)) ∧
    (alookup st.storage k = some c → isStr c = false →
      pyAppend st k s2 = (st, .error .typeError)) ∧
    (alookup st.storage k = some c → isSet c = false →
      pySadd st k (Sc.val w) = (st, .error .typeError)) ∧
    (alookup st.storage k = some c → isList c = false →
      pyLpush st k (Sc.val w) = (st, .error .typeError)) ∧
    (alookup st.storage k = some c → isList c = false →
      pyRpush st k (Sc.val w) = (st, .error .typeError)) ∧
    (alookup st.storage o = none → pyRename st o n = (st, .error .keyError)) :=
  ⟨fun hl hc => incrby_wrong_type d hl hc,
   fun hl hc => incrby_wrong_type (-d) hl hc,
   fun hl hc => append_wrong_type s2 hl hc,
   fun hl hc => sadd_wrong_type _ hl hc,
   fun hl hc => lpush_wrong_type _ hl hc,
   fun hl hc => rpush_wrong_type _ hl hc,
   fun hl => rename_absent n hl⟩

/-- C5 (witness): failure atomicity applied at the concrete state holding
the list `['a']`, with the absent rename source `'a'`. -/
theorem C5_witness :
    alookup stLa.storage "k" = some (.list [.str "a"]) ∧
    alookup stLa.storage "a" = none ∧
    ((alookup stLa.storage "k" = some (.list [.str "a"]) →
        isInt (.list [.str "a"]) = false →
        pyIncrby stLa "k" 5 = (stLa, .error .typeError)) ∧
     (alookup stLa.storage "k" = some (.list [.str "a"]) →
        isInt (.list [.str "a"]) = false →
        pyDecrby stLa "k" 5 = (stLa, .error .typeError)) ∧
     (alookup stLa.storage "k" = some (.list [.str "a"]) →
        isStr (.list [.str "a"]) = false →
        pyAppend stLa "k" "s" = (stLa, .error .typeError)) ∧
     (alookup stLa.storage "k" = some (.list [.str "a"]) →
        isSet (.list [.str "a"]) = false →
        pySadd stLa "k" (Sc.val (.s "x")) = (stLa, .error .typeError)) ∧
     (alookup stLa.storage "k" = some (.list [.str "a"]) →
        isList (.list [.str "a"]) = false →
        pyLpush stLa "k" (Sc.val (.s "x")) = (stLa, .error .typeError)) ∧
     (alookup stLa.storage "k" = some (.list [.str "a"]) →
        isList (.list [.str "a"]) = false →
        pyRpush stLa "k" (Sc.val (.s "x")) = (stLa, .error .typeError)) ∧
     (alookup stLa.storage "a" = none →
        pyRename stLa "a" "b" = (stLa, .error .keyError))) :=
  ⟨rfl, rfl, C5_failure_atomicity stLa "k" "a" "b" "s" (.s "x") 5
    (.list [.str "a"])⟩

/-- C6 (counterexample): `typeOf` never reports `sortedlist` — a key built
by `zadd` holds a Python list and reports `list`; and a TTL-wrapped string
reports `hash` (the wrapper dict), not the inner value type. -/
theorem C6_counterexample :
    Reachable stZ1 ∧
    (pyType stZ1 "k").2 = "list" ∧
    (pyType stZ1 "k").2 ≠ "sortedlist" ∧
    Reachable stTtl ∧
    (pyType stTtl "k").2 = "hash" ∧
    (pyType stTtl "k").2 ≠ "string" := by
  refine ⟨Reachable.step _ Reachable.init, rfl, ?_,
    Reachable.step _ Reachable.init, rfl, ?_⟩
  · rw [show (pyType stZ1 "k").2 = "list" from rfl]
    decide
  · rw [show (pyType stTtl "k").2 = "hash" from rfl]
    decide

/-- C6 (amended): on every reachable state, `typeOf` returns exactly one
of string, integer, list, set, hash or none (never `sortedlist`, never
`unknown`), and returns none exactly for absent keys; a key built by
`scoredAdd` reports list and a TTL-wrapped value reports hash. -/
theorem C6_typeOf_codomain (S : St) (hR : Reachable S) (k : String) :
    ((pyType S k).2 = "string" ∨ (pyType S k).2 = "integer" ∨
     (pyType S k).2 = "list" ∨ (pyType S k).2 = "set" ∨
     (pyType S k).2 = "hash" ∨ (pyType S k).2 = "none") ∧
    ((pyType S k).2 = "none" ↔ alookup S.storage k = none) := by
  rcases hl : alookup S.storage k with _ | c
  · refine ⟨.inr (.inr (.inr (.inr (.inr (by simp [pyType, hl]))))), ?_⟩
    exact ⟨fun _ => rfl, fun _ => by simp [pyType, hl]⟩
  · have htop := (StOK_lookup (reachable_StOK hR) hl).2
    have hiff : ∀ r : String, (pyType S k).2 = r → r ≠ "none" →
        ((pyType S k).2 = "none" ↔ (some c : Option Val) = none) := by
      intro r hr hne
      constructor
      · intro h2; rw [hr] at h2; exact absurd h2 hne
      · intro h2; cases h2
    cases c with
    | str s =>
      have hr : (pyType S k).2 = "string" := by simp [pyType, hl]
      exact ⟨.inl hr, hiff _ hr (by decide)⟩
    | int n =>
      have hr : (pyType S k).2 = "integer" := by simp [pyType, hl]
      exact ⟨.inr (.inl hr), hiff _ hr (by decide)⟩
    | list xs =>
      have hr : (pyType S k).2 = "list" := by simp [pyType, hl]
      exact ⟨.inr (.inr (.inl hr)), hiff _ hr (by decide)⟩
    | set xs =>
      have hr : (pyType S k).2 = "set" := by simp [pyType, hl]
      exact ⟨.inr (.inr (.inr (.inl hr))), hiff _ hr (by decide)⟩
    | dict fs =>
      have hr : (pyType S k).2 = "hash" := by simp [pyType, hl]
      exact ⟨.inr (.inr (.inr (.inr (.inl hr)))), hiff _ hr (by decide)⟩
    | tup a b => simp [topOK] at htop

/-- C6 (witness): the typeOf-codomain theorem applied to the concrete
scored-list state, where the reported type is `list`. -/
theorem C6_witness :
    Reachable stZ1 ∧
    (((pyType stZ1 "k").2 = "string" ∨ (pyType stZ1 "k").2 = "integer" ∨
      (pyType stZ1 "k").2 = "list" ∨ (pyType stZ1 "k").2 = "set" ∨
      (pyType stZ1 "k").2 = "hash" ∨ (pyType stZ1 "k").2 = "none") ∧
     ((pyType stZ1 "k").2 = "none" ↔ alookup stZ1.storage "k" = none)) :=
  ⟨Reachable.step _ Reachable.init,
   C6_typeOf_codomain stZ1 (Reachable.step _ Reachable.init) "k"⟩

/-- C7: `exists` is a raw membership test that ignores TTL — on a key
holding an already-expired TTL wrapper it still returns true, and only
after a `get` has physically removed the expired key does it return
false. -/
theorem C7_exists_ignores_ttl (st : St) (k : String)
    (fs : List (String × Val)) (t now : Int) (j : Json)
    (hnd : kNodup (st.storage.map Prod.fst) = true)
    (hl : alookup st.storage k = some (.dict fs))
    (he : alookup fs "expires_at" = some (.int t)) :
    (pyExists st k).2 = true ∧
    (now > t → encSt (eraseK st.storage k) = Except.ok j →
      (pyExists (pyGet st now k).1 k).2 = false) := by
  refine ⟨by simp [pyExists, hl], fun hgt hj => ?_⟩
  rw [get_wrapper_expired hl he hgt hj]
  simp only [pyExists]
  rw [alookup_eraseK_self hnd]
  rfl

/-- C7 (witness): the exists-ignores-TTL theorem at the concrete wrapper
state with expiry 5, read at time 6. -/
theorem C7_witness :
    kNodup (stTtl.storage.map Prod.fst) = true ∧
    alookup stTtl.storage "k" =
      some (.dict [("value", .str "v"), ("expires_at", .int 5)]) ∧
    (6 : Int) > 5 ∧
    ((pyExists stTtl "k").2 = true ∧
     ((6 : Int) > 5 → encSt (eraseK stTtl.storage "k") = Except.ok (.obj []) →
       (pyExists (pyGet stTtl 6 "k").1 "k").2 = false)) :=
  ⟨rfl, rfl, by decide,
   C7_exists_ignores_ttl stTtl "k"
     [("value", .str "v"), ("expires_at", .int 5)] 5 6 (.obj []) rfl rfl rfl⟩

/-- C8 (counterexample): the strict-boundary claim fails at the boundary —
a value stored with expiry timestamp 5 is still returned by `get` at
current time exactly 5, because the code tests `time.time() > expires_at`
strictly. -/
theorem C8_counterexample :
    Reachable stTtl ∧
    alookup stTtl.storage "k" =
      some (.dict [("value", .str "v"), ("expires_at", .int 5)]) ∧
    (pyGet stTtl 5 "k").2 = .ok (some (.str "v")) ∧
    (pyGet stTtl 5 "k").1 = stTtl ∧
    (pyGet stTtl 5 "k").2 ≠ .ok none := by
  refine ⟨Reachable.step _ Reachable.init, rfl, rfl, rfl, ?_⟩
  rw [show (pyGet stTtl 5 "k").2 = .ok (some (.str "v")) from rfl]
  simp

/-- C8 (amended): a TTL-wrapped value is logically present while the
current time is less than or equal to its expiry timestamp — `get` at
`now ≤ t` returns the wrapped value unchanged, and only at `now > t`
(strictly past) does it delete, persist and return absent. -/
theorem C8_expiry_boundary (st : St) (k : String)
    (fs : List (String × Val)) (t now : Int) (v : Val) (j : Json)
    (hl : alookup st.storage k = some (.dict fs))
    (he : alookup fs "expires_at" = some (.int t)) :
    (now ≤ t → alookup fs "value" = some v →
      pyGet st now k = (st, .ok (some v))) ∧
    (now > t → encSt (eraseK st.storage k) = Except.ok j →
      pyGet st now k = (⟨eraseK st.storage k, some j⟩, .ok none)) :=
  ⟨fun hle hv => get_wrapper_live hl he (by omega) hv,
   fun hgt hj => get_wrapper_expired hl he hgt hj⟩

/-- C8 (witness): the boundary theorem at the concrete wrapper with
expiry 5 read at time exactly 5 (the value is still returned). -/
theorem C8_witness :
    alookup stTtl.storage "k" =
      some (.dict [("value", .str "v"), ("expires_at", .int 5)]) ∧
    (5 : Int) ≤ 5 ∧
    (((5 : Int) ≤ 5 →
        alookup [("value", .str "v"), ("expires_at", .int 5)] "value" =
          some (.str "v") →
        pyGet stTtl 5 "k" = (stTtl, .ok (some (.str "v")))) ∧
     ((5 : Int) > 5 → encSt (eraseK stTtl.storage "k") = Except.ok (.obj []) →
        pyGet stTtl 5 "k" =
          (⟨eraseK stTtl.storage "k", some (.obj [])⟩, .ok none))) :=
  ⟨rfl, by decide,
   C8_expiry_boundary stTtl "k"
     [("value", .str "v"), ("expires_at", .int 5)] 5 5 (.str "v") (.obj [])
     rfl rfl⟩

/-- C9 (counterexample): `get` mistakes a user hash for a TTL wrapper, and
the claim's future-timestamp consequence does not hold as stated — on the
hash `{'expires_at': 100}` built by `hset` (no `'value'` field), `get` at
time 0 raises KeyError instead of returning the `'value'` field. -/
theorem C9_counterexample :
    Reachable stEk ∧
    alookup stEk.storage "k" = some (.dict [("expires_at", .int 100)]) ∧
    (0 : Int) ≤ 100 ∧
    pyGet stEk 0 "k" = (stEk, .error .keyError) :=
  ⟨Reachable.step _ Reachable.init, rfl, by decide, rfl⟩

/-- C9 (amended): `get` cannot distinguish a user hash carrying a numeric
`expires_at` field from a TTL wrapper — past timestamp: the key is
deleted, the snapshot persisted and absent returned; future timestamp:
the hash's `value` field is returned when present and KeyError is raised
when absent; and `expire` overwrites the `expires_at` field in place. -/
theorem C9_wrapper_capture (st : St) (k : String)
    (fs : List (String × Val)) (n now ttl : Int) (v : Val) (j j2 : Json)
    (hl : alookup st.storage k = some (.dict fs))
    (he : alookup fs "expires_at" = some (.int n)) :
    (now > n → encSt (eraseK st.storage k) = Except.ok j →
      pyGet st now k = (⟨eraseK st.storage k, some j⟩, .ok none)) ∧
    (¬(now > n) → alookup fs "value" = some v →
      pyGet st now k = (st, .ok (some v))) ∧
    (¬(now > n) → alookup fs "value" = none →
      pyGet st now k = (st, .error .keyError)) ∧
    (encSt (dinsert st.storage k
        (.dict (dinsert fs "expires_at" (.int (now + ttl))))) =
        Except.ok j2 →
      pyExpire st now k ttl =
        (⟨dinsert st.storage k
          (.dict (dinsert fs "expires_at" (.int (now + ttl)))), some j2⟩,
          .ok ())) := by
  refine ⟨fun a b => get_wrapper_expired hl he a b,
          fun a b => get_wrapper_live hl he a b,
          fun a b => get_wrapper_keyerr hl he a b, fun hj2 => ?_⟩
  simp only [pyExpire, hl, he, Option.isSome_some, if_pos rfl, if_true,
    saveSt, hj2]

/-- C9 (witness): the wrapper-capture theorem at the concrete user hash
`{'expires_at': 100}` read and refreshed at time 0 with TTL 5. -/
theorem C9_witness :
    alookup stEk.storage "k" = some (.dict [("expires_at", .int 100)]) ∧
    ¬((0 : Int) > 100) ∧
    alookup [("expires_at", .int 100)] "value" = none ∧
    (((0 : Int) > 100 → encSt (eraseK stEk.storage "k") = Except.ok (.obj []) →
        pyGet stEk 0 "k" = (⟨eraseK stEk.storage "k", some (.obj [])⟩, .ok none)) ∧
     (¬((0 : Int) > 100) → alookup [("expires_at", .int 100)] "value" = some (.str "z") →
        pyGet stEk 0 "k" = (stEk, .ok (some (.str "z")))) ∧
     (¬((0 : Int) > 100) → alookup [("expires_at", .int 100)] "value" = none →
        pyGet stEk 0 "k" = (stEk, .error .keyError)) ∧
     (encSt (dinsert stEk.storage "k"
          (.dict (dinsert [("expires_at", .int 100)] "expires_at" (.int 5)))) =
          Except.ok (.obj [("k", .obj [("expires_at", .num 5)])]) →
        pyExpire stEk 0 "k" 5 =
          (⟨dinsert stEk.storage "k"
            (.dict (dinsert [("expires_at", .int 100)] "expires_at" (.int 5))),
            some (.obj [("k", .obj [("expires_at", .num 5)])])⟩, .ok ()))) :=
  ⟨rfl, by decide, rfl,
   C9_wrapper_capture stEk "k" [("expires_at", .int 100)] 100 0 5 (.str "z")
     (.obj []) (.obj [("k", .obj [("expires_at", .num 5)])]) rfl rfl⟩

/-- C10: the read-only operations — exists, typeOf, keys, length,
setCardinality, hashLength, isMember, members, hashGet, hashKeys,
hashValues, elementAt, range, scoredRange and scoredValue — return the
engine state exactly as it was: they never modify the in-memory mapping
and never write the snapshot file. -/
theorem C10_readonly_frame (st : St) (k f pat : String) (i a b : Int)
    (v : Val) :
    (pyExists st k).1 = st ∧ (pyType st k).1 = st ∧
    (pyKeys st pat).1 = st ∧ (pyLlen st k).1 = st ∧
    (pyScard st k).1 = st ∧ (pyHlen st k).1 = st ∧
    (pySismember st k v).1 = st ∧ (pySmembers st k).1 = st ∧
    (pyHget st k f).1 = st ∧ (pyHkeys st k).1 = st ∧
    (pyHvals st k).1 = st ∧ (pyLindex st k i).1 = st ∧
    (pyLrange st k a b).1 = st ∧ (pyZrange st k a b).1 = st ∧
    (pyZscore st k v).1 = st := by
  refine ⟨rfl, ?_, rfl, ?_, ?_, ?_, ?_, ?_, ?_, ?_, ?_, ?_, ?_, ?_, ?_⟩
  · rcases hl : alookup st.storage k with _ | c
    · simp only [pyType, hl]
    · cases c <;> simp only [pyType, hl]
  · rcases hl : alookup st.storage k with _ | c
    · simp only [pyLlen, hl]
    · cases c <;> simp only [pyLlen, hl]
  · rcases hl : alookup st.storage k with _ | c
    · simp only [pyScard, hl]
    · cases c <;> simp only [pyScard, hl]
  · rcases hl : alookup st.storage k with _ | c
    · simp only [pyHlen, hl]
    · cases c <;> simp only [pyHlen, hl]
  · rcases hl : alookup st.storage k with _ | c
    · simp only [pySismember, hl]
    · simp only [pySismember, hl]
  · rcases hl : alookup st.storage k with _ | c
    · simp only [pySmembers, hl]
    · simp only [pySmembers, hl]
  · rcases hl : alookup st.storage k with _ | c
    · simp only [pyHget, hl]
    · simp only [pyHget, hl]
      rcases pyContainsStr c f with e | bb
      · rfl
      · cases bb
        · rfl
        · rcases pyGetItem c f with e | w <;> rfl
  · rcases hl : alookup st.storage k with _ | c
    · simp only [pyHkeys, hl]
    · cases c <;> simp only [pyHkeys, hl]
  · rcases hl : alookup st.storage k with _ | c
    · simp only [pyHvals, hl]
    · cases c <;> simp only [pyHvals, hl]
  · rcases hl : alookup st.storage k with _ | c
    · simp only [pyLindex, hl]
    · cases c <;> simp only [pyLindex, hl]
  · rcases hl : alookup st.storage k with _ | c
    · simp only [pyLrange, hl]
    · cases c <;> simp only [pyLrange, hl]
  · rcases hl : alookup st.storage k with _ | c
    · simp only [pyZrange, hl]
    · cases c <;> simp only [pyZrange, hl]
  · rcases hl : alookup st.storage k with _ | c
    · simp only [pyZscore, hl]
    · cases c <;> simp only [pyZscore, hl]

end JR
